import Mathlib

/-!
Verification of the task categorization and report-rendering engine of
bryan-cox/taskledger.

The Go sources are shallowly embedded:
* Go strings stay `String`; all operations on them (lexicographic byte order,
  ASCII case folding, substring search) are re-implemented over `String.toList`
  so that every definition evaluates by kernel reduction.  Byte-wise comparison
  of UTF-8 strings coincides with code-point lexicographic comparison, which is
  what `lexLtB` implements.
* Go maps are embedded as association lists in key-insertion order; `lookupKey`
  is Go map indexing, `setAt` is map assignment, `appendAt` is
  `m[k] = append(m[k], v)`.  Claims about Go map iteration are stated at the
  level of contents (lookup / membership), which Go guarantees.
* `strings.EqualFold` / `strings.ToUpper` are modelled as ASCII case folding
  (the folded constants in this code are all ASCII).
* The two regular expressions of internal/jira/jira.go are embedded as
  explicit scanning functions with the leftmost-match, greedy semantics of
  Go's regexp package on these particular patterns.
-/

namespace TaskLedger

/-! ## String helpers -/

/-- Lexicographic strict order on character lists: Go `string <` / `>`. -/
def lexLtB : List Char → List Char → Bool
  | [], [] => false
  | [], _ :: _ => true
  | _ :: _, [] => false
  | a :: as, b :: bs => if a < b then true else if b < a then false else lexLtB as bs

/-- Go `a < b` on strings (byte-wise, equivalently code-point-wise). -/
def strLtB (a b : String) : Bool := lexLtB a.toList b.toList

/-- `a ≤ b` on strings, as the negation of strict order. -/
def strLeP (a b : String) : Prop := strLtB b a = false

instance : DecidableRel strLeP := fun a b => instDecidableEqBool (strLtB b a) false

/-- ASCII uppercasing of one character (model of `strings.ToUpper`). -/
def asciiUpperChar (c : Char) : Char :=
  if 'a' ≤ c ∧ c ≤ 'z' then Char.ofNat (c.toNat - 32) else c

/-- ASCII lowercasing of one character (model of case folding). -/
def asciiLowerChar (c : Char) : Char :=
  if 'A' ≤ c ∧ c ≤ 'Z' then Char.ofNat (c.toNat + 32) else c

/-- Model of Go `strings.ToUpper`. -/
def asciiUpper (s : String) : String := String.mk (s.toList.map asciiUpperChar)

/-- Model of Go `strings.EqualFold` (case-insensitive equality). -/
def strEqFold (a b : String) : Bool := a.toList.map asciiLowerChar == b.toList.map asciiLowerChar

/-- Substring occurrence on character lists. -/
def listContainsSub (s pat : List Char) : Bool := s.tails.any (fun suf => pat.isPrefixOf suf)

/-- Model of Go `strings.Contains`. -/
def strContains (s pat : String) : Bool := listContainsSub s.toList pat.toList

/-! ## Association lists standing for Go maps -/

/-- Go map indexing `m[k]` (with the `, ok` form when matched on). -/
def lookupKey {α : Type} : List (String × α) → String → Option α
  | [], _ => none
  | (k2, v) :: rest, k => if k2 = k then some v else lookupKey rest k

/-- Go map assignment `m[k] = v`. -/
def setAt {α : Type} : List (String × α) → String → α → List (String × α)
  | [], k, v => [(k, v)]
  | (k2, v2) :: rest, k, v =>
    if k2 = k then (k2, v) :: rest else (k2, v2) :: setAt rest k v

/-- Go `m[k] = append(m[k], v)` on a map of slices. -/
def appendAt {α : Type} : List (String × List α) → String → α → List (String × List α)
  | [], k, v => [(k, [v])]
  | (k2, vs) :: rest, k, v =>
    if k2 = k then (k2, vs ++ [v]) :: rest else (k2, vs) :: appendAt rest k v

/-! ## internal/model/model.go -/

/-- Task status constants. -/
def StatusCompleted : String := "completed"

def StatusInProgress : String := "in progress"

def StatusNotStarted : String := "not started"

/-- WorkLog represents a single time entry (start and end). -/
structure WorkLog where
  startTime : String
  endTime : String
deriving DecidableEq

/-- Task represents a single work item. -/
structure Task where
  status : String
  description : String
  descriptions : List String
  jiraTicket : String
  qcGoal : String
  upnextDescription : String
  githubPR : String
  blocker : String
deriving DecidableEq

/-- GetDescriptions returns all descriptions for a task, combining both the
singular Description field and the Descriptions array. -/
def Task.GetDescriptions (t : Task) : List String :=
  (if t.description ≠ "" then [t.description] else []) ++ t.descriptions

/-- TaskWithDate represents a task with its associated date for sorting. -/
structure TaskWithDate where
  task : Task
  date : String
deriving DecidableEq

/-- DailyLog contains all information for a single day. -/
structure DailyLog where
  workLogEntries : List WorkLog
  tasks : List Task
deriving DecidableEq

/-- WorkData is the top-level structure, mapping dates to daily logs. -/
def WorkData : Type := List (String × DailyLog)

/-- CategorizedTasks holds tasks organized by their report section. -/
structure CategorizedTasks where
  completed : List (String × List TaskWithDate)
  nextUp : List (String × List TaskWithDate)
  blocked : List Task
deriving DecidableEq

/-! ## internal/jira/jira.go — ExtractTicketID

`ticketRegex = \b([A-Z]+-\d+)\b` and
`urlRegex = https://issues\.redhat\.com/browse/([A-Z]+-\d+)`, with Go's
leftmost-match semantics.  On these patterns greedy matching is equivalent to
taking the maximal run of uppercase letters, a hyphen, and the maximal run of
digits; `\b` is Go's ASCII word boundary. -/

/-- Character class `[A-Z]`. -/
def isUpperAZ (c : Char) : Bool := decide ('A' ≤ c ∧ c ≤ 'Z')

/-- Character class `\d`. -/
def isDigit09 (c : Char) : Bool := decide ('0' ≤ c ∧ c ≤ '9')

/-- Go regexp word characters `[0-9A-Za-z_]`, defining `\b`. -/
def isWordChar (c : Char) : Bool :=
  isUpperAZ c || decide ('a' ≤ c ∧ c ≤ 'z') || isDigit09 c || c == '_'

/-- Greedy match of `[A-Z]+-\d+` at the head of the input; returns the matched
identifier and the remaining characters. -/
def matchTicketCore (cs : List Char) : Option (List Char × List Char) :=
  let us := cs.takeWhile isUpperAZ
  match cs.drop us.length with
  | '-' :: r2 =>
    let ds := r2.takeWhile isDigit09
    if us ≠ [] ∧ ds ≠ [] then some (us ++ '-' :: ds, r2.drop ds.length) else none
  | _ => none

/-- Trailing `\b` after the digits: next character absent or not a word char. -/
def boundaryAfter : List Char → Bool
  | [] => true
  | a :: _ => !isWordChar a

/-- Leftmost match of `\b([A-Z]+-\d+)\b`; `prev` is the character before the
current scan position (`none` at the start of the input). -/
def ticketFindAux (prev : Option Char) : List Char → Option (List Char)
  | [] => none
  | c :: rest =>
    let boundaryBefore := match prev with | none => true | some p => !isWordChar p
    match (if boundaryBefore then matchTicketCore (c :: rest) else none) with
    | some (id, after) =>
      if boundaryAfter after then some id else ticketFindAux (some c) rest
    | none => ticketFindAux (some c) rest

/-- The literal part of `urlRegex`. -/
def browseLit : List Char := "https://issues.redhat.com/browse/".toList

/-- Leftmost match of `https://issues\.redhat\.com/browse/([A-Z]+-\d+)`. -/
def urlFindAux : List Char → Option (List Char)
  | [] => none
  | c :: rest =>
    if browseLit.isPrefixOf (c :: rest) then
      match matchTicketCore ((c :: rest).drop browseLit.length) with
      | some (id, _) => some id
      | none => urlFindAux rest
    else urlFindAux rest

/-- ExtractTicketID extracts a JIRA ticket ID from a URL or text. -/
def ExtractTicketID (input : String) : String :=
  match urlFindAux input.toList with
  | some id => String.mk id
  | none =>
    match ticketFindAux none input.toList with
    | some id => String.mk id
    | none => ""

/-! ## internal/report/categorize.go -/

/-- IsNonFeatureWork returns true if the task should be grouped under
"Non-feature work". -/
def IsNonFeatureWork (ticket : String) (githubPR : String) : Bool :=
  if ticket = "" then true
  else if strContains (asciiUpper ticket) "NO-JIRA" then githubPR == ""
  else if ExtractTicketID ticket = "" then true
  else false

/-- emptyTicketKey is a placeholder key for tasks without JIRA tickets. -/
def emptyTicketKey : String := "__empty__"

/-- The key under which a record's most-recent state is tracked. -/
def mrKeyOf (jiraTicket : String) : String :=
  if jiraTicket = "" then emptyTicketKey else jiraTicket

/-- The condition under which a record is appended to the completed bucket. -/
def completedCond (t : Task) : Prop :=
  strEqFold t.status StatusCompleted = true ∨
    (strEqFold t.status StatusInProgress = true ∧ t.GetDescriptions ≠ [])

instance (t : Task) : Decidable (completedCond t) := by
  unfold completedCond; infer_instance

/-- The three accumulator maps of `CategorizeTasks`. -/
structure CatState where
  completedTasks : List (String × List TaskWithDate)
  allNextUpTasks : List (String × List TaskWithDate)
  mostRecentTasks : List (String × TaskWithDate)
deriving DecidableEq

/-- The body of the inner loop of `CategorizeTasks` for one task of one day. -/
def processTask (date : String) (st : CatState) (task : Task) : CatState :=
  let taskWithDate : TaskWithDate := ⟨task, date⟩
  let jiraTicket := task.jiraTicket
  let completedTasks :=
    if completedCond task then appendAt st.completedTasks jiraTicket taskWithDate
    else st.completedTasks
  let allNextUpTasks :=
    if task.upnextDescription ≠ "" then appendAt st.allNextUpTasks jiraTicket taskWithDate
    else st.allNextUpTasks
  let taskKey := mrKeyOf jiraTicket
  let mostRecentTasks :=
    match lookupKey st.mostRecentTasks taskKey with
    | none => setAt st.mostRecentTasks taskKey taskWithDate
    | some existing =>
      if strLtB existing.date date then setAt st.mostRecentTasks taskKey taskWithDate
      else st.mostRecentTasks
  ⟨completedTasks, allNextUpTasks, mostRecentTasks⟩

/-- The body of the outer loop of `CategorizeTasks` for one date. -/
def processDate (workData : WorkData) (st : CatState) (date : String) : CatState :=
  match lookupKey workData date with
  | none => st
  | some dailyLog => dailyLog.tasks.foldl (processTask date) st

/-- The accumulator state after the single pass over all dates. -/
def classifyState (workData : WorkData) (dates : List String) : CatState :=
  dates.foldl (processDate workData) ⟨[], [], []⟩

/-- The most-recent map built by `CategorizeTasks`. -/
def mostRecentOf (workData : WorkData) (dates : List String) : List (String × TaskWithDate) :=
  (classifyState workData dates).mostRecentTasks

/-- The next-up filter: keep a ticket when the most recent task of its
(sentinel-aware) key is still in progress or not started. -/
def nextUpKeep (mostRecentTasks : List (String × TaskWithDate)) (jiraTicket : String) : Bool :=
  match lookupKey mostRecentTasks (mrKeyOf jiraTicket) with
  | some mostRecent =>
    strEqFold mostRecent.task.status StatusInProgress ||
      strEqFold mostRecent.task.status StatusNotStarted
  | none => false

/-- CategorizeTasks groups tasks from the work data into completed, next up,
and blocked categories. -/
def CategorizeTasks (workData : WorkData) (dates : List String) : CategorizedTasks :=
  let st := classifyState workData dates
  { completed := st.completedTasks
    nextUp := st.allNextUpTasks.filter (fun kv => nextUpKeep st.mostRecentTasks kv.1)
    blocked := st.mostRecentTasks.filterMap
      (fun kv => if kv.2.task.blocker ≠ "" then some kv.2.task else none) }

/-- The flattened `(date, task)` traversal sequence of `CategorizeTasks`:
dates in the given order, then each present day's tasks in list order. -/
def recordsInRange (workData : WorkData) : List String → List (String × Task)
  | [] => []
  | d :: ds =>
    (match lookupKey workData d with
     | none => []
     | some dailyLog => dailyLog.tasks.map (fun t => (d, t))) ++ recordsInRange workData ds

/-- One step of the classifier on a flattened `(date, task)` pair. -/
def processPair (st : CatState) (p : String × Task) : CatState := processTask p.1 st p.2

/-! ## internal/report/text.go

Each `Print…` function writes newline-terminated lines to a writer; the
embedding returns the list of written lines.  `sort.Strings` / `sort.Slice`
are modelled with `List.insertionSort` (a sorted permutation, which is what Go
guarantees); iterating a Go map and then sorting the collected keys is
modelled by sorting the association-list entries by key. -/

/-- Section headers for text output (Slack-compatible emoji codes). -/
def TextHeaderCompleted : String := "\n🦀 Thing I\x27ve been working on"

def TextHeaderNextUp : String := "\n:starfleet: Thing I plan on working on next"

def TextHeaderBlocked : String :=
  "\n:facepalm: Thing that is blocking me or that I could use some help / discussion about"

def textNonFeatureWorkHeader : String := "Non-feature work"

/-- Ordering of `sort.Slice(taskList, …Date < …Date)`. -/
def dateLe (a b : TaskWithDate) : Prop := strLeP a.date b.date

instance : DecidableRel dateLe := fun a b => instDecidableEqBool (strLtB b.date a.date) false

/-- Model of `sort.Slice` by ascending date. -/
def sortByDate (l : List TaskWithDate) : List TaskWithDate := l.insertionSort dateLe

/-- Model of `sort.Strings`. -/
def sortStrings (l : List String) : List String := l.insertionSort strLeP

/-- Ordering of map entries by key, modelling `sort.Strings` over map keys
followed by map indexing. -/
def keyLe (a b : String × List TaskWithDate) : Prop := strLeP a.1 b.1

instance : DecidableRel keyLe := fun a b => instDecidableEqBool (strLtB b.1 a.1) false

def sortEntriesByKey (l : List (String × List TaskWithDate)) : List (String × List TaskWithDate) :=
  l.insertionSort keyLe

/-- One step of the `prLinks map[string]bool` set accumulation. -/
def prStep (acc : List String) (twd : TaskWithDate) : List String :=
  if twd.task.githubPR ≠ "" ∧ twd.task.githubPR ∉ acc then acc ++ [twd.task.githubPR]
  else acc

/-- The `prLinks map[string]bool` set accumulation: the distinct non-empty
`GithubPR` values in first-insertion order. -/
def collectPRLinks (taskList : List TaskWithDate) : List String :=
  taskList.foldl prStep []

/-- The sorted de-duplicated PR link set of a task group. -/
def sortedPRLinks (taskList : List TaskWithDate) : List String :=
  sortStrings (collectPRLinks taskList)

/-- The trailing `PR(s):` line of a feature entry, if any. -/
def prLine (indent : String) (taskList : List TaskWithDate) : List String :=
  if sortedPRLinks taskList = [] then []
  else [indent ++ "PR(s): " ++ "; ".intercalate (sortedPRLinks taskList)]

/-- printTicketEntry prints a single ticket entry with its descriptions and
PRs. -/
def printTicketEntry (ticket : String) (taskList : List TaskWithDate) : List String :=
  let sorted := sortByDate taskList
  let descriptions := sorted.flatMap (fun twd => twd.task.GetDescriptions)
  ("    • " ++ ticket ++ ": ") ::
    descriptions.map (fun d => "        ◦ " ++ d) ++ prLine "        ◦ " sorted

/-- printNonFeatureSubEntry prints a non-feature work sub-entry with ticket
name as header. -/
def printNonFeatureSubEntry (ticket : String) (taskList : List TaskWithDate) : List String :=
  let sorted := sortByDate taskList
  let header := if ticket = "" then "Misc" else ticket
  let descriptions := sorted.flatMap (fun twd => twd.task.GetDescriptions)
  ("        ◦ " ++ header) ::
    descriptions.map (fun d => "            ▪ " ++ d) ++ prLine "            ▪ " sorted

/-- The non-feature test applied to a completed / next-up group: any task in
the group with a PR makes the group count as having a PR. -/
def groupIsNonFeature (kv : String × List TaskWithDate) : Bool :=
  let hasPR := kv.2.any (fun t => t.task.githubPR ≠ "")
  IsNonFeatureWork kv.1 (if hasPR then "has-pr" else "")

/-- PrintCompletedTasks prints the completed tasks section. -/
def PrintCompletedTasks (tasks : List (String × List TaskWithDate)) : List String :=
  if tasks.isEmpty then []
  else
    let featureEntries := sortEntriesByKey (tasks.filter (fun kv => !groupIsNonFeature kv))
    let nonFeatureEntries := sortEntriesByKey (tasks.filter (fun kv => groupIsNonFeature kv))
    TextHeaderCompleted ::
      featureEntries.flatMap (fun kv => printTicketEntry kv.1 kv.2) ++
        (if nonFeatureEntries.isEmpty then []
         else ("    • " ++ textNonFeatureWorkHeader ++ ": ") ::
           nonFeatureEntries.flatMap (fun kv => printNonFeatureSubEntry kv.1 kv.2))

/-- The backward scan for the most recent next-up description: state update
for one task, scanning from the most recent date backwards. -/
def nextUpDescStep (acc : String) (twd : TaskWithDate) : String :=
  if acc ≠ "" then acc
  else if twd.task.upnextDescription ≠ "" then twd.task.upnextDescription
  else
    match twd.task.GetDescriptions.getLast? with
    | some d => d
    | none => acc

/-- The most recent next-up description of a date-sorted task group. -/
def mostRecentDescOf (sorted : List TaskWithDate) : String :=
  sorted.reverse.foldl nextUpDescStep ""

/-- The body lines of a next-up entry: the most recent description (if any)
and the PR line, at the given indent. -/
def nextUpBody (indent : String) (taskList : List TaskWithDate) : List String :=
  let sorted := sortByDate taskList
  (if mostRecentDescOf sorted ≠ "" then [indent ++ mostRecentDescOf sorted] else []) ++
    prLine indent sorted.reverse

/-- printNextUpTicketEntry prints a single next up ticket entry. -/
def printNextUpTicketEntry (ticket : String) (taskList : List TaskWithDate) : List String :=
  ("    • " ++ ticket) :: nextUpBody "        ◦ " taskList

/-- printNonFeatureNextUpSubEntry prints a non-feature next up sub-entry. -/
def printNonFeatureNextUpSubEntry (ticket : String) (taskList : List TaskWithDate) :
    List String :=
  ("        ◦ " ++ (if ticket = "" then "Misc" else ticket)) ::
    nextUpBody "            ▪ " taskList

/-- PrintNextUpTasks prints the next up tasks section. -/
def PrintNextUpTasks (nextUp : List (String × List TaskWithDate)) : List String :=
  if nextUp.isEmpty then []
  else
    let featureEntries := sortEntriesByKey (nextUp.filter (fun kv => !groupIsNonFeature kv))
    let nonFeatureEntries := sortEntriesByKey (nextUp.filter (fun kv => groupIsNonFeature kv))
    TextHeaderNextUp ::
      featureEntries.flatMap (fun kv => printNextUpTicketEntry kv.1 kv.2) ++
        (if nonFeatureEntries.isEmpty then []
         else ("    • " ++ textNonFeatureWorkHeader) ::
           nonFeatureEntries.flatMap (fun kv => printNonFeatureNextUpSubEntry kv.1 kv.2))

/-- PrintBlockedTasks prints the blocked tasks section. -/
def PrintBlockedTasks (blocked : List Task) : List String :=
  if blocked.isEmpty then []
  else
    let featureTasks := blocked.filter (fun t => !IsNonFeatureWork t.jiraTicket t.githubPR)
    let nonFeatureTasks := blocked.filter (fun t => IsNonFeatureWork t.jiraTicket t.githubPR)
    TextHeaderBlocked ::
      featureTasks.flatMap
          (fun t => ["    • " ++ t.jiraTicket ++ " ", "        ◦ Blocker: " ++ t.blocker]) ++
        (if nonFeatureTasks.isEmpty then []
         else ("    • " ++ textNonFeatureWorkHeader ++ " ") ::
           nonFeatureTasks.flatMap
             (fun t =>
               ["        ◦ " ++ (if t.jiraTicket = "" then "Misc" else t.jiraTicket),
                "            ▪ Blocker: " ++ t.blocker]))

/-! ## Auxiliary definitions used in theorem statements -/

/-- The no-duplicate-keys invariant every Go map satisfies. -/
def keysND {α : Type} (m : List (String × α)) : Prop := (m.map Prod.fst).Nodup

/-- One step of the `mostRecentTasks` update, seen through a single key. -/
def mrStep (acc : Option TaskWithDate) (p : String × Task) : Option TaskWithDate :=
  match acc with
  | none => some ⟨p.2, p.1⟩
  | some existing => if strLtB existing.date p.1 then some ⟨p.2, p.1⟩ else some existing

/-- The records of key `k` that the completed rule appends, in traversal
order. -/
def collectCompleted (k : String) (l : List (String × Task)) : List TaskWithDate :=
  l.filterMap
    (fun p => if p.2.jiraTicket = k ∧ completedCond p.2 then some ⟨p.2, p.1⟩ else none)

/-- The records of key `k` carrying a next-up note, in traversal order. -/
def collectNextUp (k : String) (l : List (String × Task)) : List TaskWithDate :=
  l.filterMap
    (fun p => if p.2.jiraTicket = k ∧ p.2.upnextDescription ≠ "" then some ⟨p.2, p.1⟩ else none)

/-- A nonempty uppercase run, a hyphen, then a nonempty digit run:
the language of `[A-Z]+-[0-9]+`. -/
def IsTicketShape (cs : List Char) : Prop :=
  ∃ us ds, cs = us ++ '-' :: ds ∧ us ≠ [] ∧ ds ≠ [] ∧
    (∀ c ∈ us, isUpperAZ c = true) ∧ (∀ c ∈ ds, isDigit09 c = true)

/-- The predicate a record must satisfy to be still open (gating next-up). -/
def statusOpenP (twd : TaskWithDate) : Prop :=
  strEqFold twd.task.status StatusInProgress = true ∨
    strEqFold twd.task.status StatusNotStarted = true

/-- The combined description set as the specification words it: the optional
single description followed by the descriptions sequence, keeping only
non-empty entries.  Note that `Task.GetDescriptions` in the code does NOT
filter the `descriptions` array for empty entries. -/
def specCombinedDescs (t : Task) : List String :=
  ((if t.description ≠ "" then [t.description] else []) ++ t.descriptions).filter
    (fun d => d ≠ "")

/-- Sample record: in progress for SCR-2 with an upcoming note and blocker. -/
def sampleInProgress : Task :=
  ⟨"in progress", "", [], "SCR-2", "", "Continue parsing", "", "Waiting on schema"⟩

/-- Sample record: SCR-2 completed on the following day. -/
def sampleCompleted : Task := ⟨"completed", "done", [], "SCR-2", "", "", "", ""⟩

/-- Sample work log realizing Scenario B of the specification. -/
def sampleWorkData : WorkData :=
  [("2024-08-01", ⟨[], [sampleInProgress]⟩), ("2024-08-02", ⟨[], [sampleCompleted]⟩)]

/-- Two same-day records of one key with different blockers. -/
def tieTask1 : Task := ⟨"completed", "d1", [], "SCR-1", "", "", "p1", "b1"⟩

def tieTask2 : Task := ⟨"completed", "d2", [], "SCR-1", "", "", "p2", "b2"⟩

/-- A work log with a same-date tie on key SCR-1. -/
def tieWorkData : WorkData := [("2024-08-01", ⟨[], [tieTask1, tieTask2]⟩)]

/-- An in-progress record whose only description entry is the empty string. -/
def emptyDescTask : Task := ⟨"in progress", "", [""], "SCR-1", "", "", "", ""⟩

/-- A work log containing only `emptyDescTask`. -/
def emptyDescWorkData : WorkData := [("2024-08-01", ⟨[], [emptyDescTask]⟩)]

/-- A single anonymous (empty-key) group for rendering instances. -/
def nonFeatureGroup : List (String × List TaskWithDate) := [("", [])]

/-- An anonymous blocked task. -/
def blockedAnon : Task := ⟨"", "", [], "", "", "", "", "b"⟩

/-- An empty-key record with a blocker and an upcoming note. -/
def anonTask : Task := ⟨"in progress", "d", [], "", "", "u1", "", "b1"⟩

/-- A record whose key is literally the sentinel string. -/
def sentinelNamedTask : Task := ⟨"completed", "d2", [], "__empty__", "", "", "", ""⟩

/-- A work log where an empty-key record and a sentinel-keyed record share
the pooled most-recent slot. -/
def pooledWorkData : WorkData :=
  [("2024-08-01", ⟨[], [anonTask]⟩), ("2024-08-02", ⟨[], [sentinelNamedTask]⟩)]

/-- A two-record task group with two distinct PR links. -/
def prTaskGroup : List TaskWithDate :=
  [⟨tieTask1, "2024-08-01"⟩, ⟨tieTask2, "2024-08-01"⟩]

/-! ## Order facts for the embedded string comparison -/

theorem lexLtB_irrefl : ∀ a : List Char, lexLtB a a = false
  | [] => rfl
  | c :: cs => by
    unfold lexLtB
    rw [if_neg (lt_irrefl c), if_neg (lt_irrefl c)]
    exact lexLtB_irrefl cs

theorem lexLtB_trans {a b c : List Char} (hab : lexLtB a b = true)
    (hbc : lexLtB b c = true) : lexLtB a c = true := by
  induction a generalizing b c with
  | nil =>
    cases b with
    | nil => simp [lexLtB] at hab
    | cons y bs =>
      cases c with
      | nil => simp [lexLtB] at hbc
      | cons z cs => simp [lexLtB]
  | cons x as ih =>
    cases b with
    | nil => simp [lexLtB] at hab
    | cons y bs =>
      cases c with
      | nil => simp [lexLtB] at hbc
      | cons z cs =>
        simp only [lexLtB] at hab hbc ⊢
        by_cases hxy : x < y
        · by_cases hyz : y < z
          · rw [if_pos (lt_trans hxy hyz)]
          · by_cases hzy : z < y
            · rw [if_neg hyz, if_pos hzy] at hbc
              simp at hbc
            · have hyzeq : y = z := le_antisymm (not_lt.mp hzy) (not_lt.mp hyz)
              rw [if_pos (hyzeq ▸ hxy)]
        · by_cases hyx : y < x
          · rw [if_neg hxy, if_pos hyx] at hab
            simp at hab
          · have hxyeq : x = y := le_antisymm (not_lt.mp hyx) (not_lt.mp hxy)
            rw [if_neg hxy, if_neg hyx] at hab
            by_cases hyz : y < z
            · rw [if_pos (hxyeq.symm ▸ hyz : x < z)]
            · by_cases hzy : z < y
              · rw [if_neg hyz, if_pos hzy] at hbc
                simp at hbc
              · have hyzeq : y = z := le_antisymm (not_lt.mp hzy) (not_lt.mp hyz)
                rw [if_neg hyz, if_neg hzy] at hbc
                have hxz : x = z := hxyeq.trans hyzeq
                rw [hxz, if_neg (lt_irrefl z), if_neg (lt_irrefl z)]
                exact ih hab hbc

theorem lexLtB_eq_of_nlt {a b : List Char} (hab : lexLtB a b = false)
    (hba : lexLtB b a = false) : a = b := by
  induction a generalizing b with
  | nil =>
    cases b with
    | nil => rfl
    | cons y bs => simp [lexLtB] at hab
  | cons x as ih =>
    cases b with
    | nil => simp [lexLtB] at hba
    | cons y bs =>
      simp only [lexLtB] at hab hba
      by_cases hxy : x < y
      · rw [if_pos hxy] at hab
        simp at hab
      · by_cases hyx : y < x
        · rw [if_pos hyx] at hba
          simp at hba
        · rw [if_neg hxy, if_neg hyx] at hab
          rw [if_neg hyx, if_neg hxy] at hba
          have hxyeq : x = y := le_antisymm (not_lt.mp hyx) (not_lt.mp hxy)
          rw [hxyeq, ih hab hba]

theorem lexLtB_asymm {a b : List Char} (h : lexLtB a b = true) : lexLtB b a = false := by
  by_contra h2
  have h3 : lexLtB b a = true := by
    cases h4 : lexLtB b a
    · exact absurd h4 h2
    · rfl
  have h5 := lexLtB_trans h h3
  rw [lexLtB_irrefl] at h5
  exact Bool.false_ne_true h5

theorem lexLtB_lt_of_nlt_of_lt {a b c : List Char} (hab : lexLtB a b = false)
    (hac : lexLtB a c = true) : lexLtB b c = true := by
  cases hba : lexLtB b a with
  | true => exact lexLtB_trans hba hac
  | false => exact (lexLtB_eq_of_nlt hab hba) ▸ hac

theorem string_toList_inj {a b : String} (h : a.toList = b.toList) : a = b := by
  cases a
  cases b
  simp only [String.toList] at h
  exact congrArg String.mk h

theorem strLtB_irrefl (a : String) : strLtB a a = false := lexLtB_irrefl _

theorem strLtB_trans {a b c : String} (hab : strLtB a b = true) (hbc : strLtB b c = true) :
    strLtB a c = true := lexLtB_trans hab hbc

theorem strLtB_asymm {a b : String} (h : strLtB a b = true) : strLtB b a = false :=
  lexLtB_asymm h

theorem strLtB_eq_of_nlt {a b : String} (hab : strLtB a b = false)
    (hba : strLtB b a = false) : a = b :=
  string_toList_inj (lexLtB_eq_of_nlt hab hba)

theorem strLtB_lt_of_nlt_of_lt {a b c : String} (hab : strLtB a b = false)
    (hac : strLtB a c = true) : strLtB b c = true :=
  lexLtB_lt_of_nlt_of_lt hab hac

instance : IsTrans String strLeP :=
  ⟨fun a b c hab hbc => by
    by_contra h
    have hca : strLtB c a = true := by
      cases h4 : strLtB c a
      · exact absurd h4 h
      · rfl
    have hba : strLtB b a = true := strLtB_lt_of_nlt_of_lt hbc hca
    rw [hab] at hba
    exact Bool.false_ne_true hba⟩

instance : IsTotal String strLeP :=
  ⟨fun a b => by
    cases h : strLtB b a with
    | false => exact Or.inl h
    | true => exact Or.inr (strLtB_asymm h)⟩

/-! ## Association-list (Go map) lemmas -/

theorem lookupKey_setAt_self {α : Type} (m : List (String × α)) (k : String) (v : α) :
    lookupKey (setAt m k v) k = some v := by
  induction m with
  | nil => simp [setAt, lookupKey]
  | cons kv rest ih =>
    obtain ⟨k2, v2⟩ := kv
    by_cases h : k2 = k
    · simp [setAt, h, lookupKey]
    · simp [setAt, h, lookupKey, ih]

theorem lookupKey_setAt_ne {α : Type} (m : List (String × α)) (k k2 : String) (v : α)
    (h : k ≠ k2) : lookupKey (setAt m k v) k2 = lookupKey m k2 := by
  induction m with
  | nil => simp [setAt, lookupKey, h]
  | cons kv rest ih =>
    obtain ⟨k3, v3⟩ := kv
    by_cases h3 : k3 = k
    · subst h3
      simp [setAt, lookupKey, h]
    · simp only [setAt, if_neg h3, lookupKey]
      by_cases h4 : k3 = k2
      · simp [h4]
      · simp [h4, ih]

theorem lookupKey_appendAt_self {α : Type} (m : List (String × List α)) (k : String) (v : α) :
    lookupKey (appendAt m k v) k = some ((lookupKey m k).getD [] ++ [v]) := by
  induction m with
  | nil => simp [appendAt, lookupKey]
  | cons kv rest ih =>
    obtain ⟨k2, v2⟩ := kv
    by_cases h : k2 = k
    · simp [appendAt, h, lookupKey]
    · simp [appendAt, h, lookupKey, ih]

theorem lookupKey_appendAt_ne {α : Type} (m : List (String × List α)) (k k2 : String) (v : α)
    (h : k ≠ k2) : lookupKey (appendAt m k v) k2 = lookupKey m k2 := by
  induction m with
  | nil => simp [appendAt, lookupKey, h]
  | cons kv rest ih =>
    obtain ⟨k3, v3⟩ := kv
    by_cases h3 : k3 = k
    · subst h3
      simp [appendAt, lookupKey, h]
    · simp only [appendAt, if_neg h3, lookupKey]
      by_cases h4 : k3 = k2
      · simp [h4]
      · simp [h4, ih]

theorem mem_of_lookupKey {α : Type} {m : List (String × α)} {k : String} {v : α}
    (h : lookupKey m k = some v) : (k, v) ∈ m := by
  induction m with
  | nil => simp [lookupKey] at h
  | cons kv rest ih =>
    obtain ⟨k2, v2⟩ := kv
    by_cases h2 : k2 = k
    · subst h2
      simp only [lookupKey, if_pos rfl] at h
      cases h
      exact List.mem_cons_self _ _
    · simp only [lookupKey, if_neg h2] at h
      exact List.mem_cons_of_mem _ (ih h)


theorem keysND_nil {α : Type} : keysND ([] : List (String × α)) := List.nodup_nil

theorem mem_keys_setAt {α : Type} {m : List (String × α)} {k k2 : String} {v : α}
    (h : k2 ∈ (setAt m k v).map Prod.fst) : k2 ∈ m.map Prod.fst ∨ k2 = k := by
  induction m with
  | nil => simpa [setAt] using h
  | cons kv rest ih =>
    obtain ⟨k3, v3⟩ := kv
    by_cases h3 : k3 = k
    · simp only [setAt, if_pos h3, List.map_cons, List.mem_cons] at h ⊢
      tauto
    · simp only [setAt, if_neg h3, List.map_cons, List.mem_cons] at h ⊢
      rcases h with h | h
      · exact Or.inl (Or.inl h)
      · rcases ih h with h | h
        · exact Or.inl (Or.inr h)
        · exact Or.inr h

theorem keysND_setAt {α : Type} {m : List (String × α)} {k : String} {v : α}
    (h : keysND m) : keysND (setAt m k v) := by
  induction m with
  | nil => simp [keysND, setAt]
  | cons kv rest ih =>
    obtain ⟨k3, v3⟩ := kv
    simp only [keysND, List.map_cons, List.nodup_cons] at h
    by_cases h3 : k3 = k
    · simp only [keysND, setAt, if_pos h3, List.map_cons, List.nodup_cons]
      exact h
    · simp only [keysND, setAt, if_neg h3, List.map_cons, List.nodup_cons]
      refine ⟨fun hm => ?_, ih h.2⟩
      rcases mem_keys_setAt hm with hm | hm
      · exact h.1 hm
      · exact h3 hm

theorem mem_keys_appendAt {α : Type} {m : List (String × List α)} {k k2 : String} {v : α}
    (h : k2 ∈ (appendAt m k v).map Prod.fst) : k2 ∈ m.map Prod.fst ∨ k2 = k := by
  induction m with
  | nil => simpa [appendAt] using h
  | cons kv rest ih =>
    obtain ⟨k3, v3⟩ := kv
    by_cases h3 : k3 = k
    · simp only [appendAt, if_pos h3, List.map_cons, List.mem_cons] at h ⊢
      tauto
    · simp only [appendAt, if_neg h3, List.map_cons, List.mem_cons] at h ⊢
      rcases h with h | h
      · exact Or.inl (Or.inl h)
      · rcases ih h with h | h
        · exact Or.inl (Or.inr h)
        · exact Or.inr h

theorem keysND_appendAt {α : Type} {m : List (String × List α)} {k : String} {v : α}
    (h : keysND m) : keysND (appendAt m k v) := by
  induction m with
  | nil => simp [keysND, appendAt]
  | cons kv rest ih =>
    obtain ⟨k3, v3⟩ := kv
    simp only [keysND, List.map_cons, List.nodup_cons] at h
    by_cases h3 : k3 = k
    · simp only [keysND, appendAt, if_pos h3, List.map_cons, List.nodup_cons]
      exact h
    · simp only [keysND, appendAt, if_neg h3, List.map_cons, List.nodup_cons]
      refine ⟨fun hm => ?_, ih h.2⟩
      rcases mem_keys_appendAt hm with hm | hm
      · exact h.1 hm
      · exact h3 hm

theorem lookupKey_of_mem {α : Type} {m : List (String × α)} {k : String} {v : α}
    (hnd : keysND m) (hm : (k, v) ∈ m) : lookupKey m k = some v := by
  induction m with
  | nil => simp at hm
  | cons kv rest ih =>
    obtain ⟨k2, v2⟩ := kv
    simp only [keysND, List.map_cons, List.nodup_cons] at hnd
    rcases List.mem_cons.mp hm with h | h
    · cases h
      simp [lookupKey]
    · have hk : k2 ≠ k := by
        intro he
        exact hnd.1 (he ▸ (List.mem_map.mpr ⟨(k, v), h, rfl⟩))
      simp only [lookupKey, if_neg hk]
      exact ih hnd.2 h

theorem lookupKey_filter_key {α : Type} (m : List (String × α)) (q : String → Bool)
    (k : String) :
    lookupKey (m.filter (fun kv => q kv.1)) k = if q k then lookupKey m k else none := by
  induction m with
  | nil => simp [lookupKey]
  | cons kv rest ih =>
    obtain ⟨k2, v2⟩ := kv
    by_cases h2 : k2 = k
    · subst h2
      cases hq : q k2 with
      | true => simp [List.filter, hq, lookupKey, ih]
      | false => simp [List.filter, hq, lookupKey, ih]
    · cases hq : q k2 with
      | true => simp [List.filter, hq, lookupKey, h2, ih]
      | false => simp [List.filter, hq, lookupKey, h2, ih]

/-! ## Flattening the two classifier loops into one pass over pairs -/

theorem processDate_eq_foldPairs (workData : WorkData) (st : CatState) (d : String) :
    processDate workData st d =
      (match lookupKey workData d with
       | none => ([] : List (String × Task))
       | some dailyLog => dailyLog.tasks.map (fun t => (d, t))).foldl processPair st := by
  unfold processDate
  cases lookupKey workData d with
  | none => rfl
  | some dailyLog =>
    simp only [List.foldl_map]
    rfl

theorem classifyState_foldPairs_gen (workData : WorkData) (dates : List String)
    (st : CatState) :
    dates.foldl (processDate workData) st =
      (recordsInRange workData dates).foldl processPair st := by
  induction dates generalizing st with
  | nil => rfl
  | cons d ds ih =>
    simp only [List.foldl_cons, recordsInRange, List.foldl_append]
    rw [ih, processDate_eq_foldPairs]

theorem classifyState_eq_foldPairs (workData : WorkData) (dates : List String) :
    classifyState workData dates = (recordsInRange workData dates).foldl processPair ⟨[], [], []⟩ :=
  classifyState_foldPairs_gen workData dates ⟨[], [], []⟩

/-! ## Per-component step lemmas for one `(date, task)` pair -/

theorem processPair_completed_lookup (st : CatState) (p : String × Task) (k : String) :
    lookupKey (processPair st p).completedTasks k =
      if p.2.jiraTicket = k ∧ completedCond p.2
      then some ((lookupKey st.completedTasks k).getD [] ++ [⟨p.2, p.1⟩])
      else lookupKey st.completedTasks k := by
  show lookupKey (if completedCond p.2 then appendAt st.completedTasks p.2.jiraTicket ⟨p.2, p.1⟩
       else st.completedTasks) k = _
  by_cases hc : completedCond p.2
  · rw [if_pos hc]
    by_cases hk : p.2.jiraTicket = k
    · rw [if_pos ⟨hk, hc⟩, hk, lookupKey_appendAt_self]
    · rw [if_neg (fun h => hk h.1), lookupKey_appendAt_ne _ _ _ _ hk]
  · rw [if_neg hc, if_neg (fun h => hc h.2)]

theorem processPair_allNextUp_lookup (st : CatState) (p : String × Task) (k : String) :
    lookupKey (processPair st p).allNextUpTasks k =
      if p.2.jiraTicket = k ∧ p.2.upnextDescription ≠ ""
      then some ((lookupKey st.allNextUpTasks k).getD [] ++ [⟨p.2, p.1⟩])
      else lookupKey st.allNextUpTasks k := by
  show lookupKey (if p.2.upnextDescription ≠ ""
       then appendAt st.allNextUpTasks p.2.jiraTicket ⟨p.2, p.1⟩
       else st.allNextUpTasks) k = _
  by_cases hc : p.2.upnextDescription ≠ ""
  · rw [if_pos hc]
    by_cases hk : p.2.jiraTicket = k
    · rw [if_pos ⟨hk, hc⟩, hk, lookupKey_appendAt_self]
    · rw [if_neg (fun h => hk h.1), lookupKey_appendAt_ne _ _ _ _ hk]
  · rw [if_neg hc, if_neg (fun h => hc h.2)]


theorem processPair_mostRecent_lookup (st : CatState) (p : String × Task) (k : String) :
    lookupKey (processPair st p).mostRecentTasks k =
      if mrKeyOf p.2.jiraTicket = k
      then mrStep (lookupKey st.mostRecentTasks k) p
      else lookupKey st.mostRecentTasks k := by
  show lookupKey
      (match lookupKey st.mostRecentTasks (mrKeyOf p.2.jiraTicket) with
       | none => setAt st.mostRecentTasks (mrKeyOf p.2.jiraTicket) ⟨p.2, p.1⟩
       | some existing =>
         if strLtB existing.date p.1 then setAt st.mostRecentTasks (mrKeyOf p.2.jiraTicket) ⟨p.2, p.1⟩
         else st.mostRecentTasks) k = _
  by_cases hk : mrKeyOf p.2.jiraTicket = k
  · rw [if_pos hk, hk]
    cases hl : lookupKey st.mostRecentTasks k with
    | none => simp [mrStep, lookupKey_setAt_self]
    | some existing =>
      by_cases hd : strLtB existing.date p.1 = true
      · simp [mrStep, hd, lookupKey_setAt_self]
      · have hd2 : strLtB existing.date p.1 = false := by
          cases h4 : strLtB existing.date p.1
          · rfl
          · exact absurd h4 hd
        simp [mrStep, hd2, hl]
  · rw [if_neg hk]
    cases hl : lookupKey st.mostRecentTasks (mrKeyOf p.2.jiraTicket) with
    | none => rw [lookupKey_setAt_ne _ _ _ _ hk]
    | some existing =>
      by_cases hd : strLtB existing.date p.1 = true
      · simp only [hd, if_pos]
        rw [lookupKey_setAt_ne _ _ _ _ hk]
      · have hd2 : strLtB existing.date p.1 = false := by
          cases h4 : strLtB existing.date p.1
          · rfl
          · exact absurd h4 hd
        simp [hd2]

/-! ## Fold characterizations of the three accumulators -/



theorem completed_lookup_getD (l : List (String × Task)) (st : CatState) (k : String) :
    (lookupKey (l.foldl processPair st).completedTasks k).getD [] =
      (lookupKey st.completedTasks k).getD [] ++ collectCompleted k l := by
  induction l generalizing st with
  | nil => simp [collectCompleted]
  | cons p l ih =>
    simp only [List.foldl_cons]
    rw [ih]
    rw [processPair_completed_lookup]
    by_cases hc : p.2.jiraTicket = k ∧ completedCond p.2
    · rw [if_pos hc]
      simp only [collectCompleted, List.filterMap_cons, if_pos hc]
      simp [collectCompleted, List.append_assoc]
    · rw [if_neg hc]
      simp only [collectCompleted, List.filterMap_cons, if_neg hc]

theorem completed_lookup_none (l : List (String × Task)) (st : CatState) (k : String) :
    lookupKey (l.foldl processPair st).completedTasks k = none ↔
      lookupKey st.completedTasks k = none ∧ collectCompleted k l = [] := by
  induction l generalizing st with
  | nil => simp [collectCompleted]
  | cons p l ih =>
    simp only [List.foldl_cons]
    rw [ih, processPair_completed_lookup]
    by_cases hc : p.2.jiraTicket = k ∧ completedCond p.2
    · rw [if_pos hc]
      simp only [collectCompleted, List.filterMap_cons, if_pos hc]
      simp
    · rw [if_neg hc]
      simp only [collectCompleted, List.filterMap_cons, if_neg hc]

theorem allNextUp_lookup_getD (l : List (String × Task)) (st : CatState) (k : String) :
    (lookupKey (l.foldl processPair st).allNextUpTasks k).getD [] =
      (lookupKey st.allNextUpTasks k).getD [] ++ collectNextUp k l := by
  induction l generalizing st with
  | nil => simp [collectNextUp]
  | cons p l ih =>
    simp only [List.foldl_cons]
    rw [ih, processPair_allNextUp_lookup]
    by_cases hc : p.2.jiraTicket = k ∧ p.2.upnextDescription ≠ ""
    · rw [if_pos hc]
      simp only [collectNextUp, List.filterMap_cons, if_pos hc]
      simp [List.append_assoc]
    · rw [if_neg hc]
      simp only [collectNextUp, List.filterMap_cons, if_neg hc]

theorem allNextUp_lookup_none (l : List (String × Task)) (st : CatState) (k : String) :
    lookupKey (l.foldl processPair st).allNextUpTasks k = none ↔
      lookupKey st.allNextUpTasks k = none ∧ collectNextUp k l = [] := by
  induction l generalizing st with
  | nil => simp [collectNextUp]
  | cons p l ih =>
    simp only [List.foldl_cons]
    rw [ih, processPair_allNextUp_lookup]
    by_cases hc : p.2.jiraTicket = k ∧ p.2.upnextDescription ≠ ""
    · rw [if_pos hc]
      simp only [collectNextUp, List.filterMap_cons, if_pos hc]
      simp
    · rw [if_neg hc]
      simp only [collectNextUp, List.filterMap_cons, if_neg hc]

theorem mostRecent_lookup_fold (l : List (String × Task)) (st : CatState) (k : String) :
    lookupKey (l.foldl processPair st).mostRecentTasks k =
      (l.filter (fun p => decide (mrKeyOf p.2.jiraTicket = k))).foldl mrStep
        (lookupKey st.mostRecentTasks k) := by
  induction l generalizing st with
  | nil => rfl
  | cons p l ih =>
    simp only [List.foldl_cons]
    rw [ih, processPair_mostRecent_lookup]
    by_cases hk : mrKeyOf p.2.jiraTicket = k
    · rw [if_pos hk]
      simp [List.filter_cons, hk]
    · rw [if_neg hk]
      simp [List.filter_cons, hk]

/-! ## The most-recent slot keeps the first record of the maximal date -/

theorem mrFold_some (l : List (String × Task)) (ex : TaskWithDate) :
    ∃ r, l.foldl mrStep (some ex) = some r ∧
      (∀ q ∈ l, strLtB r.date q.1 = false) ∧
      (r = ex ∨ ∃ l1 p l2, l = l1 ++ p :: l2 ∧ r = ⟨p.2, p.1⟩ ∧
        strLtB ex.date p.1 = true ∧ ∀ q ∈ l1, strLtB q.1 p.1 = true) := by
  induction l generalizing ex with
  | nil => exact ⟨ex, rfl, by simp, Or.inl rfl⟩
  | cons x l ih =>
    simp only [List.foldl_cons]
    by_cases hd : strLtB ex.date x.1 = true
    · rw [show mrStep (some ex) x = some ⟨x.2, x.1⟩ from by simp [mrStep, hd]]
      obtain ⟨r, hfold, hglob, hcases⟩ := ih ⟨x.2, x.1⟩
      refine ⟨r, hfold, ?_, ?_⟩
      · intro q hq
        rcases List.mem_cons.mp hq with h | h
        · subst h
          rcases hcases with hre | ⟨l1, p, l2, hsplit, hrp, hlt, hfirst⟩
          · rw [hre]
            exact strLtB_irrefl _
          · rw [hrp]
            exact strLtB_asymm hlt
        · exact hglob q h
      · right
        rcases hcases with hre | ⟨l1, p, l2, hsplit, hrp, hlt, hfirst⟩
        · exact ⟨[], x, l, by simp, hre, hd, by simp⟩
        · refine ⟨x :: l1, p, l2, by rw [hsplit, List.cons_append], hrp, strLtB_trans hd hlt, ?_⟩
          intro q hq
          rcases List.mem_cons.mp hq with h | h
          · subst h
            exact hlt
          · exact hfirst q h
    · have hd2 : strLtB ex.date x.1 = false := by
        cases h4 : strLtB ex.date x.1
        · rfl
        · exact absurd h4 hd
      rw [show mrStep (some ex) x = some ex from by simp [mrStep, hd2]]
      obtain ⟨r, hfold, hglob, hcases⟩ := ih ex
      refine ⟨r, hfold, ?_, ?_⟩
      · intro q hq
        rcases List.mem_cons.mp hq with h | h
        · subst h
          rcases hcases with hre | ⟨l1, p, l2, hsplit, hrp, hlt, hfirst⟩
          · rw [hre]
            exact hd2
          · rw [hrp]
            exact strLtB_asymm (strLtB_lt_of_nlt_of_lt hd2 hlt)
        · exact hglob q h
      · rcases hcases with hre | ⟨l1, p, l2, hsplit, hrp, hlt, hfirst⟩
        · exact Or.inl hre
        · refine Or.inr ⟨x :: l1, p, l2, by rw [hsplit, List.cons_append], hrp, hlt, ?_⟩
          intro q hq
          rcases List.mem_cons.mp hq with h | h
          · subst h
            exact strLtB_lt_of_nlt_of_lt hd2 hlt
          · exact hfirst q h

theorem mrFold_none (l : List (String × Task)) (hne : l ≠ []) :
    ∃ l1 p l2, l = l1 ++ p :: l2 ∧
      l.foldl mrStep none = some ⟨p.2, p.1⟩ ∧
      (∀ q ∈ l, strLtB p.1 q.1 = false) ∧
      (∀ q ∈ l1, strLtB q.1 p.1 = true) := by
  cases l with
  | nil => exact absurd rfl hne
  | cons x l =>
    simp only [List.foldl_cons]
    rw [show mrStep none x = some ⟨x.2, x.1⟩ from rfl]
    obtain ⟨r, hfold, hglob, hcases⟩ := mrFold_some l ⟨x.2, x.1⟩
    rcases hcases with hre | ⟨l1, p, l2, hsplit, hrp, hlt, hfirst⟩
    · refine ⟨[], x, l, by simp, ?_, ?_, by simp⟩
      · rw [hfold, hre]
      · intro q hq
        rcases List.mem_cons.mp hq with h | h
        · subst h
          exact strLtB_irrefl _
        · have h5 := hglob q h
          rw [hre] at h5
          exact h5
    · refine ⟨x :: l1, p, l2, by rw [hsplit, List.cons_append], ?_, ?_, ?_⟩
      · rw [hfold, hrp]
      · intro q hq
        rcases List.mem_cons.mp hq with h | h
        · subst h
          exact strLtB_asymm hlt
        · have h5 := hglob q h
          rw [hrp] at h5
          exact h5
      · intro q hq
        rcases List.mem_cons.mp hq with h | h
        · subst h
          exact hlt
        · exact hfirst q h

/-! ## Map invariants of the classifier state -/

theorem processPair_mostRecent_cases (st : CatState) (p : String × Task) :
    (processPair st p).mostRecentTasks = st.mostRecentTasks ∨
      ∃ k v, (processPair st p).mostRecentTasks = setAt st.mostRecentTasks k v := by
  unfold processPair processTask
  cases hl : lookupKey st.mostRecentTasks (mrKeyOf p.2.jiraTicket) with
  | none =>
    simp only [hl]
    exact Or.inr ⟨_, _, rfl⟩
  | some existing =>
    simp only [hl]
    by_cases hd : strLtB existing.date p.1 = true
    · simp only [hd, if_true]
      exact Or.inr ⟨_, _, rfl⟩
    · have hd2 : strLtB existing.date p.1 = false := by
        cases h4 : strLtB existing.date p.1
        · rfl
        · exact absurd h4 hd
      simp only [hd2]
      exact Or.inl rfl

theorem keysND_foldPairs_mostRecent (l : List (String × Task)) (st : CatState)
    (h : keysND st.mostRecentTasks) : keysND ((l.foldl processPair st).mostRecentTasks) := by
  induction l generalizing st with
  | nil => exact h
  | cons p l ih =>
    simp only [List.foldl_cons]
    refine ih _ ?_
    rcases processPair_mostRecent_cases st p with hc | ⟨k, v, hc⟩
    · rw [hc]
      exact h
    · rw [hc]
      exact keysND_setAt h

theorem keysND_mostRecentOf (workData : WorkData) (dates : List String) :
    keysND (mostRecentOf workData dates) := by
  unfold mostRecentOf
  rw [classifyState_eq_foldPairs]
  exact keysND_foldPairs_mostRecent _ _ keysND_nil

theorem mostRecentOf_lookup (workData : WorkData) (dates : List String) (k : String) :
    lookupKey (mostRecentOf workData dates) k =
      ((recordsInRange workData dates).filter
        (fun p => decide (mrKeyOf p.2.jiraTicket = k))).foldl mrStep none := by
  unfold mostRecentOf
  rw [classifyState_eq_foldPairs, mostRecent_lookup_fold]
  rfl

theorem mostRecentOf_key_inv (workData : WorkData) (dates : List String) (k : String)
    (r : TaskWithDate) (h : lookupKey (mostRecentOf workData dates) k = some r) :
    mrKeyOf r.task.jiraTicket = k := by
  rw [mostRecentOf_lookup] at h
  rcases hfc : (recordsInRange workData dates).filter
      (fun p => decide (mrKeyOf p.2.jiraTicket = k)) with _ | ⟨x, l⟩
  · rw [hfc] at h
    simp at h
  · have hne : (recordsInRange workData dates).filter
        (fun p => decide (mrKeyOf p.2.jiraTicket = k)) ≠ [] := by
      rw [hfc]
      simp
    obtain ⟨l1, p, l2, hsplit, hfold, hglob, hfirst⟩ :=
      mrFold_none ((recordsInRange workData dates).filter
        (fun p => decide (mrKeyOf p.2.jiraTicket = k))) hne
    rw [hfold] at h
    have hpmem : p ∈ (recordsInRange workData dates).filter
        (fun p => decide (mrKeyOf p.2.jiraTicket = k)) := by
      rw [hsplit]
      exact List.mem_append_right _ (List.mem_cons_self _ _)
    have hpk : mrKeyOf p.2.jiraTicket = k := by
      simpa using List.of_mem_filter hpmem
    cases h
    exact hpk

/-! ## Shape of every extracted ticket identifier -/


theorem matchTicketCore_shape {cs id rest : List Char}
    (h : matchTicketCore cs = some (id, rest)) : IsTicketShape id := by
  simp only [matchTicketCore] at h
  split at h
  · split at h
    · rename_i r2 heq hcond
      injection h with h2
      have h3 : id = cs.takeWhile isUpperAZ ++ '-' :: r2.takeWhile isDigit09 := by
        have := congrArg Prod.fst h2.symm
        simpa using this
      refine ⟨cs.takeWhile isUpperAZ, r2.takeWhile isDigit09, h3, hcond.1, hcond.2, ?_, ?_⟩
      · intro c hc
        exact List.mem_takeWhile_imp hc
      · intro c hc
        exact List.mem_takeWhile_imp hc
    · exact absurd h (by simp)
  · exact absurd h (by simp)

theorem ticketFindAux_shape (cs : List Char) :
    ∀ (prev : Option Char) (id : List Char),
      ticketFindAux prev cs = some id → IsTicketShape id := by
  induction cs with
  | nil =>
    intro prev id h
    simp [ticketFindAux] at h
  | cons c rest ih =>
    intro prev id h
    simp only [ticketFindAux] at h
    split at h
    · rename_i id2 after heq
      split at h
      · injection h with h2
        subst h2
        split at heq
        · exact matchTicketCore_shape heq
        · simp at heq
      · exact ih (some c) id h
    · exact ih (some c) id h

theorem urlFindAux_shape (cs : List Char) :
    ∀ id : List Char, urlFindAux cs = some id → IsTicketShape id := by
  induction cs with
  | nil =>
    intro id h
    simp [urlFindAux] at h
  | cons c rest ih =>
    intro id h
    simp only [urlFindAux] at h
    split at h
    · split at h
      · rename_i id2 after heq
        injection h with h2
        subst h2
        exact matchTicketCore_shape heq
      · exact ih id h
    · exact ih id h

/-! ## Case-folded status facts -/

theorem strEqFold_completed_not_open (s : String)
    (h : strEqFold s StatusCompleted = true) :
    strEqFold s StatusInProgress = false ∧ strEqFold s StatusNotStarted = false := by
  unfold strEqFold at h
  have he := eq_of_beq h
  unfold strEqFold
  rw [he]
  exact ⟨by decide, by decide⟩

/-! ## Lookup characterizations of the classifier result -/

theorem completedOf_lookup (workData : WorkData) (dates : List String) (k : String) :
    lookupKey (CategorizeTasks workData dates).completed k =
      if collectCompleted k (recordsInRange workData dates) = [] then none
      else some (collectCompleted k (recordsInRange workData dates)) := by
  show lookupKey (classifyState workData dates).completedTasks k = _
  rw [classifyState_eq_foldPairs]
  by_cases h : collectCompleted k (recordsInRange workData dates) = []
  · rw [if_pos h]
    exact (completed_lookup_none _ _ _).mpr ⟨rfl, h⟩
  · rw [if_neg h]
    have hgd := completed_lookup_getD (recordsInRange workData dates) ⟨[], [], []⟩ k
    rcases ho : lookupKey ((recordsInRange workData dates).foldl processPair
        ⟨[], [], []⟩).completedTasks k with _ | xs
    · exact absurd (((completed_lookup_none _ _ _).mp ho).2) h
    · rw [ho] at hgd
      simp only [Option.getD_some] at hgd
      rw [hgd]
      rfl

theorem allNextUpOf_lookup (workData : WorkData) (dates : List String) (k : String) :
    lookupKey (classifyState workData dates).allNextUpTasks k =
      if collectNextUp k (recordsInRange workData dates) = [] then none
      else some (collectNextUp k (recordsInRange workData dates)) := by
  rw [classifyState_eq_foldPairs]
  by_cases h : collectNextUp k (recordsInRange workData dates) = []
  · rw [if_pos h]
    exact (allNextUp_lookup_none _ _ _).mpr ⟨rfl, h⟩
  · rw [if_neg h]
    have hgd := allNextUp_lookup_getD (recordsInRange workData dates) ⟨[], [], []⟩ k
    rcases ho : lookupKey ((recordsInRange workData dates).foldl processPair
        ⟨[], [], []⟩).allNextUpTasks k with _ | xs
    · exact absurd (((allNextUp_lookup_none _ _ _).mp ho).2) h
    · rw [ho] at hgd
      simp only [Option.getD_some] at hgd
      rw [hgd]
      rfl

theorem nextUp_lookup (workData : WorkData) (dates : List String) (k : String) :
    lookupKey (CategorizeTasks workData dates).nextUp k =
      if nextUpKeep (mostRecentOf workData dates) k then
        lookupKey (classifyState workData dates).allNextUpTasks k
      else none := by
  show lookupKey ((classifyState workData dates).allNextUpTasks.filter
      (fun kv => nextUpKeep (classifyState workData dates).mostRecentTasks kv.1)) k = _
  rw [lookupKey_filter_key]
  rfl

theorem nextUpKeep_iff (m : List (String × TaskWithDate)) (k : String) :
    nextUpKeep m k = true ↔
      ∃ mr, lookupKey m (mrKeyOf k) = some mr ∧ statusOpenP mr := by
  unfold nextUpKeep
  cases h : lookupKey m (mrKeyOf k) with
  | none => simp
  | some mr => simp [statusOpenP, Bool.or_eq_true]

theorem collectNextUp_ne_nil_iff (k : String) (l : List (String × Task)) :
    collectNextUp k l ≠ [] ↔
      ∃ p ∈ l, p.2.jiraTicket = k ∧ p.2.upnextDescription ≠ "" := by
  unfold collectNextUp
  constructor
  · intro h
    by_contra hno
    push_neg at hno
    apply h
    rw [List.filterMap_eq_nil_iff]
    intro p hp
    rw [if_neg]
    intro hc
    exact hc.2 (hno p hp hc.1)
  · rintro ⟨p, hp, h1, h2⟩ hnil
    have h3 := (List.filterMap_eq_nil_iff.mp hnil) p hp
    rw [if_pos ⟨h1, h2⟩] at h3
    exact Option.some_ne_none _ h3

theorem mem_collectCompleted {k : String} {l : List (String × Task)} {twd : TaskWithDate}
    (h : twd ∈ collectCompleted k l) : twd.task.jiraTicket = k := by
  unfold collectCompleted at h
  rcases List.mem_filterMap.mp h with ⟨p, hp, hf⟩
  by_cases hc : p.2.jiraTicket = k ∧ completedCond p.2
  · rw [if_pos hc] at hf
    injection hf with hf
    rw [← hf]
    exact hc.1
  · rw [if_neg hc] at hf
    exact absurd hf (by simp)

theorem mem_collectNextUp {k : String} {l : List (String × Task)} {twd : TaskWithDate}
    (h : twd ∈ collectNextUp k l) : twd.task.jiraTicket = k := by
  unfold collectNextUp at h
  rcases List.mem_filterMap.mp h with ⟨p, hp, hf⟩
  by_cases hc : p.2.jiraTicket = k ∧ p.2.upnextDescription ≠ ""
  · rw [if_pos hc] at hf
    injection hf with hf
    rw [← hf]
    exact hc.1
  · rw [if_neg hc] at hf
    exact absurd hf (by simp)

theorem nextUp_mem_char (workData : WorkData) (dates : List String) (k : String) :
    (∃ l, lookupKey (CategorizeTasks workData dates).nextUp k = some l) ↔
      ((∃ p ∈ recordsInRange workData dates,
          p.2.jiraTicket = k ∧ p.2.upnextDescription ≠ "") ∧
       ∃ mr, lookupKey (mostRecentOf workData dates) (mrKeyOf k) = some mr ∧
         statusOpenP mr) := by
  rw [show (∃ l, lookupKey (CategorizeTasks workData dates).nextUp k = some l) ↔
      lookupKey (CategorizeTasks workData dates).nextUp k ≠ none from by
    cases lookupKey (CategorizeTasks workData dates).nextUp k <;> simp]
  rw [nextUp_lookup]
  by_cases hk : nextUpKeep (mostRecentOf workData dates) k = true
  · rw [if_pos hk, allNextUpOf_lookup]
    by_cases hc : collectNextUp k (recordsInRange workData dates) = []
    · rw [if_pos hc]
      simp only [ne_eq, not_true_eq_false, false_iff, not_and]
      intro hex
      exact absurd ((collectNextUp_ne_nil_iff k _).mpr hex) (by simp [hc])
    · rw [if_neg hc]
      simp only [ne_eq, Option.some_ne_none, not_false_eq_true, true_iff]
      exact ⟨(collectNextUp_ne_nil_iff k _).mp hc, (nextUpKeep_iff _ _).mp hk⟩
  · rw [if_neg hk]
    simp only [ne_eq, not_true_eq_false, false_iff, not_and]
    intro hex
    intro hmr
    exact hk ((nextUpKeep_iff _ _).mpr hmr)

theorem blocked_mem_char (workData : WorkData) (dates : List String) (t : Task) :
    t ∈ (CategorizeTasks workData dates).blocked ↔
      ∃ k mr, lookupKey (mostRecentOf workData dates) k = some mr ∧
        mr.task.blocker ≠ "" ∧ t = mr.task := by
  show t ∈ (mostRecentOf workData dates).filterMap
      (fun kv => if kv.2.task.blocker ≠ "" then some kv.2.task else none) ↔ _
  rw [List.mem_filterMap]
  constructor
  · rintro ⟨kv, hkv, hf⟩
    by_cases hb : kv.2.task.blocker ≠ ""
    · rw [if_pos hb] at hf
      injection hf with hf
      exact ⟨kv.1, kv.2, lookupKey_of_mem (keysND_mostRecentOf workData dates) hkv, hb,
        hf.symm⟩
    · rw [if_neg hb] at hf
      exact absurd hf (by simp)
  · rintro ⟨k, mr, hl, hb, ht⟩
    refine ⟨(k, mr), mem_of_lookupKey hl, ?_⟩
    rw [if_pos hb, ht]

/-! ## Renderer lemmas -/

theorem mem_prFold (l : List TaskWithDate) (acc : List String) (s : String) :
    s ∈ l.foldl prStep acc ↔
      s ∈ acc ∨ ∃ twd ∈ l, twd.task.githubPR = s ∧ s ≠ "" := by
  induction l generalizing acc with
  | nil => simp
  | cons twd l ih =>
    simp only [List.foldl_cons]
    rw [ih]
    unfold prStep
    by_cases hc : twd.task.githubPR ≠ "" ∧ twd.task.githubPR ∉ acc
    · rw [if_pos hc]
      constructor
      · rintro (h | ⟨twd2, h2, h3⟩)
        · rcases List.mem_append.mp h with h2 | h2
          · exact Or.inl h2
          · have h3 : s = twd.task.githubPR := List.mem_singleton.mp h2
            subst h3
            exact Or.inr ⟨twd, List.mem_cons_self _ _, rfl, hc.1⟩
        · exact Or.inr ⟨twd2, List.mem_cons_of_mem _ h2, h3⟩
      · rintro (h | ⟨twd2, h2, h3, h4⟩)
        · exact Or.inl (List.mem_append.mpr (Or.inl h))
        · rcases List.mem_cons.mp h2 with h2 | h2
          · subst h2
            exact Or.inl (List.mem_append.mpr (Or.inr (List.mem_singleton.mpr h3.symm)))
          · exact Or.inr ⟨twd2, h2, h3, h4⟩
    · rw [if_neg hc]
      constructor
      · rintro (h | ⟨twd2, h2, h3⟩)
        · exact Or.inl h
        · exact Or.inr ⟨twd2, List.mem_cons_of_mem _ h2, h3⟩
      · rintro (h | ⟨twd2, h2, h3, h4⟩)
        · exact Or.inl h
        · rcases List.mem_cons.mp h2 with h2 | h2
          · subst h2
            left
            rcases not_and_or.mp hc with hc2 | hc2
            · exact absurd (h3.symm.trans (not_not.mp hc2)) h4
            · exact h3 ▸ not_not.mp hc2
          · exact Or.inr ⟨twd2, h2, h3, h4⟩

theorem nodup_prFold (l : List TaskWithDate) (acc : List String) (h : acc.Nodup) :
    (l.foldl prStep acc).Nodup := by
  induction l generalizing acc with
  | nil => exact h
  | cons twd l ih =>
    simp only [List.foldl_cons]
    refine ih _ ?_
    unfold prStep
    by_cases hc : twd.task.githubPR ≠ "" ∧ twd.task.githubPR ∉ acc
    · rw [if_pos hc, List.nodup_append]
      refine ⟨h, List.nodup_singleton _, ?_⟩
      intro a ha hb
      rw [List.mem_singleton] at hb
      subst hb
      exact hc.2 ha
    · rw [if_neg hc]
      exact h

theorem mem_collectPRLinks (l : List TaskWithDate) (s : String) :
    s ∈ collectPRLinks l ↔ ∃ twd ∈ l, twd.task.githubPR = s ∧ s ≠ "" := by
  unfold collectPRLinks
  rw [mem_prFold]
  simp

theorem nodup_collectPRLinks (l : List TaskWithDate) : (collectPRLinks l).Nodup :=
  nodup_prFold l [] List.nodup_nil

theorem mem_sortStrings (l : List String) (s : String) : s ∈ sortStrings l ↔ s ∈ l :=
  (List.perm_insertionSort strLeP l).mem_iff

theorem nodup_sortStrings (l : List String) (h : l.Nodup) : (sortStrings l).Nodup :=
  ((List.perm_insertionSort strLeP l).nodup_iff).mpr h

theorem sorted_sortStrings (l : List String) : List.Sorted strLeP (sortStrings l) :=
  List.sorted_insertionSort strLeP l

theorem mem_sortByDate (l : List TaskWithDate) (t : TaskWithDate) :
    t ∈ sortByDate l ↔ t ∈ l :=
  (List.perm_insertionSort dateLe l).mem_iff

theorem mem_sortedPRLinks (taskList : List TaskWithDate) (s : String) :
    s ∈ sortedPRLinks taskList ↔ ∃ twd ∈ taskList, twd.task.githubPR = s ∧ s ≠ "" := by
  unfold sortedPRLinks
  rw [mem_sortStrings, mem_collectPRLinks]

theorem mem_sortedPRLinks_sortByDate (taskList : List TaskWithDate) (s : String) :
    s ∈ sortedPRLinks (sortByDate taskList) ↔
      ∃ twd ∈ taskList, twd.task.githubPR = s ∧ s ≠ "" := by
  rw [mem_sortedPRLinks]
  constructor
  · rintro ⟨twd, h1, h2⟩
    exact ⟨twd, (mem_sortByDate _ _).mp h1, h2⟩
  · rintro ⟨twd, h1, h2⟩
    exact ⟨twd, (mem_sortByDate _ _).mpr h1, h2⟩

theorem sortEntriesByKey_nil : sortEntriesByKey [] = [] := rfl

theorem printCompletedTasks_structure (tasks : List (String × List TaskWithDate))
    (hnf : sortEntriesByKey (tasks.filter (fun kv => groupIsNonFeature kv)) ≠ []) :
    PrintCompletedTasks tasks =
      TextHeaderCompleted ::
        (sortEntriesByKey (tasks.filter (fun kv => !groupIsNonFeature kv))).flatMap
          (fun kv => printTicketEntry kv.1 kv.2) ++
        ("    • " ++ textNonFeatureWorkHeader ++ ": ") ::
          (sortEntriesByKey (tasks.filter (fun kv => groupIsNonFeature kv))).flatMap
            (fun kv => printNonFeatureSubEntry kv.1 kv.2) := by
  have ht : tasks ≠ [] := by
    intro he
    subst he
    exact hnf rfl
  simp only [PrintCompletedTasks]
  rw [if_neg (by simpa [List.isEmpty_eq_true] using ht),
    if_neg (by simpa [List.isEmpty_eq_true] using hnf)]

theorem printNextUpTasks_structure (nextUp : List (String × List TaskWithDate))
    (hnf : sortEntriesByKey (nextUp.filter (fun kv => groupIsNonFeature kv)) ≠ []) :
    PrintNextUpTasks nextUp =
      TextHeaderNextUp ::
        (sortEntriesByKey (nextUp.filter (fun kv => !groupIsNonFeature kv))).flatMap
          (fun kv => printNextUpTicketEntry kv.1 kv.2) ++
        ("    • " ++ textNonFeatureWorkHeader) ::
          (sortEntriesByKey (nextUp.filter (fun kv => groupIsNonFeature kv))).flatMap
            (fun kv => printNonFeatureNextUpSubEntry kv.1 kv.2) := by
  have ht : nextUp ≠ [] := by
    intro he
    subst he
    exact hnf rfl
  simp only [PrintNextUpTasks]
  rw [if_neg (by simpa [List.isEmpty_eq_true] using ht),
    if_neg (by simpa [List.isEmpty_eq_true] using hnf)]

theorem printBlockedTasks_structure (blocked : List Task)
    (hnf : blocked.filter (fun t => IsNonFeatureWork t.jiraTicket t.githubPR) ≠ []) :
    PrintBlockedTasks blocked =
      TextHeaderBlocked ::
        (blocked.filter (fun t => !IsNonFeatureWork t.jiraTicket t.githubPR)).flatMap
          (fun t => ["    • " ++ t.jiraTicket ++ " ", "        ◦ Blocker: " ++ t.blocker]) ++
        ("    • " ++ textNonFeatureWorkHeader ++ " ") ::
          (blocked.filter (fun t => IsNonFeatureWork t.jiraTicket t.githubPR)).flatMap
            (fun t =>
              ["        ◦ " ++ (if t.jiraTicket = "" then "Misc" else t.jiraTicket),
               "            ▪ Blocker: " ++ t.blocker]) := by
  have ht : blocked ≠ [] := by
    intro he
    subst he
    exact hnf rfl
  simp only [PrintBlockedTasks]
  rw [if_neg (by simpa [List.isEmpty_eq_true] using ht),
    if_neg (by simpa [List.isEmpty_eq_true] using hnf)]

theorem printNonFeatureSubEntry_shape (ticket : String) (taskList : List TaskWithDate) :
    ∃ rest, printNonFeatureSubEntry ticket taskList =
        ("        ◦ " ++ (if ticket = "" then "Misc" else ticket)) :: rest ∧
      ∀ line ∈ rest, ∃ tail, line = "            ▪ " ++ tail := by
  refine ⟨_, rfl, ?_⟩
  intro line hline
  rcases List.mem_append.mp hline with h | h
  · rcases List.mem_map.mp h with ⟨d, hd, he⟩
    exact ⟨d, he.symm⟩
  · unfold prLine at h
    split at h
    · simp at h
    · rw [List.mem_singleton] at h
      refine ⟨"PR(s): " ++ "; ".intercalate (sortedPRLinks (sortByDate taskList)), ?_⟩
      rw [h]
      exact String.append_assoc _ _ _

theorem printNonFeatureNextUpSubEntry_shape (ticket : String)
    (taskList : List TaskWithDate) :
    ∃ rest, printNonFeatureNextUpSubEntry ticket taskList =
        ("        ◦ " ++ (if ticket = "" then "Misc" else ticket)) :: rest ∧
      ∀ line ∈ rest, ∃ tail, line = "            ▪ " ++ tail := by
  refine ⟨_, rfl, ?_⟩
  intro line hline
  unfold nextUpBody at hline
  rcases List.mem_append.mp hline with h | h
  · split at h
    · rw [List.mem_singleton] at h
      exact ⟨mostRecentDescOf (sortByDate taskList), h⟩
    · simp at h
  · unfold prLine at h
    split at h
    · simp at h
    · rw [List.mem_singleton] at h
      refine ⟨"PR(s): " ++ "; ".intercalate (sortedPRLinks (sortByDate taskList).reverse), ?_⟩
      rw [h]
      exact String.append_assoc _ _ _

theorem printTicketEntry_with_prLine (ticket : String) (taskList : List TaskWithDate)
    (h : sortedPRLinks (sortByDate taskList) ≠ []) :
    printTicketEntry ticket taskList =
      ("    • " ++ ticket ++ ": ") ::
        ((sortByDate taskList).flatMap (fun twd => twd.task.GetDescriptions)).map
          (fun d => "        ◦ " ++ d) ++
        ["        ◦ " ++ "PR(s): " ++
          "; ".intercalate (sortedPRLinks (sortByDate taskList))] := by
  simp only [printTicketEntry]
  unfold prLine
  rw [if_neg h]

theorem printTicketEntry_no_prLine (ticket : String) (taskList : List TaskWithDate)
    (h : sortedPRLinks (sortByDate taskList) = []) :
    printTicketEntry ticket taskList =
      ("    • " ++ ticket ++ ": ") ::
        ((sortByDate taskList).flatMap (fun twd => twd.task.GetDescriptions)).map
          (fun d => "        ◦ " ++ d) := by
  simp only [printTicketEntry]
  unfold prLine
  rw [if_pos h]
  simp

/-! ## Claim theorems -/

theorem mrKeyOf_eq_sentinel_iff (j : String) :
    mrKeyOf j = emptyTicketKey ↔ j = "" ∨ j = emptyTicketKey := by
  unfold mrKeyOf
  by_cases hj : j = ""
  · simp [hj]
  · simp [hj]

/-- Claim C1, counterexample: with the single ascending date 2024-08-01 and
two records of key SCR-1 on that day, the record designated most recent is
the FIRST one seen (`tieTask1`), not the last one (`tieTask2`) as the claim
states, because the code only replaces the slot on a strictly greater date. -/
theorem claim1_counterexample :
    List.Chain' (fun a b => strLtB a b = true) ["2024-08-01"] ∧
    recordsInRange tieWorkData ["2024-08-01"] =
      [("2024-08-01", tieTask1), ("2024-08-01", tieTask2)] ∧
    lookupKey (mostRecentOf tieWorkData ["2024-08-01"]) "SCR-1" =
      some ⟨tieTask1, "2024-08-01"⟩ ∧
    tieTask1 ≠ tieTask2 :=
  ⟨List.chain'_singleton _, by decide, by decide, by decide⟩

/-- Claim C1 (amended): for an ascending de-duplicated date sequence, the
designated most-recent record of every key with at least one record is the
one with the lexicographically greatest date among that key's records, and
when several records share that greatest date the FIRST such record in
traversal order is kept. -/
theorem claim1_most_recent_designation (workData : WorkData) (dates : List String)
    (k : String) (hasc : List.Chain' (fun a b => strLtB a b = true) dates)
    (hne : (recordsInRange workData dates).filter
      (fun p => decide (mrKeyOf p.2.jiraTicket = k)) ≠ []) :
    ∃ l1 p l2,
      (recordsInRange workData dates).filter
        (fun p => decide (mrKeyOf p.2.jiraTicket = k)) = l1 ++ p :: l2 ∧
      lookupKey (mostRecentOf workData dates) k = some ⟨p.2, p.1⟩ ∧
      (∀ q ∈ l1 ++ p :: l2, strLtB p.1 q.1 = false) ∧
      (∀ q ∈ l1, strLtB q.1 p.1 = true) := by
  obtain ⟨l1, p, l2, hsplit, hfold, hglob, hfirst⟩ := mrFold_none _ hne
  rw [hsplit] at hglob
  refine ⟨l1, p, l2, hsplit, ?_, hglob, hfirst⟩
  rw [mostRecentOf_lookup, hfold]

/-- Claim C1, witness for the amended theorem at a concrete input. -/
theorem claim1_witness :
    (List.Chain' (fun a b => strLtB a b = true) ["2024-08-01"] ∧
      (recordsInRange tieWorkData ["2024-08-01"]).filter
        (fun p => decide (mrKeyOf p.2.jiraTicket = "SCR-1")) ≠ []) ∧
    ∃ l1 p l2,
      (recordsInRange tieWorkData ["2024-08-01"]).filter
        (fun p => decide (mrKeyOf p.2.jiraTicket = "SCR-1")) = l1 ++ p :: l2 ∧
      lookupKey (mostRecentOf tieWorkData ["2024-08-01"]) "SCR-1" = some ⟨p.2, p.1⟩ ∧
      (∀ q ∈ l1 ++ p :: l2, strLtB p.1 q.1 = false) ∧
      (∀ q ∈ l1, strLtB q.1 p.1 = true) :=
  ⟨⟨List.chain'_singleton _, by decide⟩,
   claim1_most_recent_designation tieWorkData ["2024-08-01"] "SCR-1"
     (List.chain'_singleton _) (by decide)⟩

/-- Claim C2: a key appears in the nextUp view iff some record of that key in
range has a non-empty upcoming note and the (sentinel-aware) most-recent
record of that key has a status that case-insensitively equals "in progress"
or "not started"; in particular a key whose most-recent status folds to
"completed" never appears in nextUp. -/
theorem claim2_nextUp_gating (workData : WorkData) (dates : List String) (k : String) :
    ((∃ l, lookupKey (CategorizeTasks workData dates).nextUp k = some l) ↔
      ((∃ p ∈ recordsInRange workData dates,
          p.2.jiraTicket = k ∧ p.2.upnextDescription ≠ "") ∧
       ∃ mr, lookupKey (mostRecentOf workData dates) (mrKeyOf k) = some mr ∧
         statusOpenP mr)) ∧
    (∀ mr, lookupKey (mostRecentOf workData dates) (mrKeyOf k) = some mr →
      strEqFold mr.task.status StatusCompleted = true →
      lookupKey (CategorizeTasks workData dates).nextUp k = none) := by
  refine ⟨nextUp_mem_char workData dates k, ?_⟩
  intro mr hmr hcomp
  have hkeep : nextUpKeep (mostRecentOf workData dates) k = false := by
    unfold nextUpKeep
    rw [hmr]
    have h2 := strEqFold_completed_not_open mr.task.status hcomp
    show (strEqFold mr.task.status StatusInProgress ||
      strEqFold mr.task.status StatusNotStarted) = false
    rw [h2.1, h2.2]
    rfl
  rw [nextUp_lookup, hkeep]
  simp

/-- Claim C2, witness: Scenario B — SCR-2 has an upcoming note on day one but
is completed on day two, so it is excluded from nextUp. -/
theorem claim2_witness :
    (lookupKey (mostRecentOf sampleWorkData ["2024-08-01", "2024-08-02"])
        (mrKeyOf "SCR-2") = some ⟨sampleCompleted, "2024-08-02"⟩ ∧
      strEqFold sampleCompleted.status StatusCompleted = true) ∧
    lookupKey (CategorizeTasks sampleWorkData
      ["2024-08-01", "2024-08-02"]).nextUp "SCR-2" = none :=
  ⟨⟨by decide, by decide⟩,
   (claim2_nextUp_gating sampleWorkData ["2024-08-01", "2024-08-02"] "SCR-2").2
     ⟨sampleCompleted, "2024-08-02"⟩ (by decide) (by decide)⟩

/-- Claim C3, counterexample: an in-progress record whose only description
entry is the empty string has an empty combined description set in the
specification's sense (only non-empty entries kept), yet the code appends it
to the completed bucket, because `GetDescriptions` keeps empty entries of the
`descriptions` array. -/
theorem claim3_counterexample :
    strEqFold emptyDescTask.status StatusInProgress = true ∧
    strEqFold emptyDescTask.status StatusCompleted = false ∧
    specCombinedDescs emptyDescTask = [] ∧
    lookupKey (CategorizeTasks emptyDescWorkData ["2024-08-01"]).completed "SCR-1" =
      some [⟨emptyDescTask, "2024-08-01"⟩] := by
  refine ⟨by decide, by decide, by decide, by decide⟩

/-- Claim C3 (amended): the completed bucket of a key holds exactly the
records, in traversal order, whose status folds to "completed" or folds to
"in progress" with a non-empty `GetDescriptions` list — where
`GetDescriptions` is the optional single description (when non-empty)
followed by the ENTIRE descriptions array, empty entries included; a record
that is not completed and has an empty `GetDescriptions` list never
satisfies the appending condition. -/
theorem claim3_completed_rule :
    (∀ (workData : WorkData) (dates : List String) (k : String),
      lookupKey (CategorizeTasks workData dates).completed k =
        if collectCompleted k (recordsInRange workData dates) = [] then none
        else some (collectCompleted k (recordsInRange workData dates))) ∧
    (∀ t : Task, strEqFold t.status StatusCompleted = false →
      t.GetDescriptions = [] → ¬ completedCond t) := by
  refine ⟨completedOf_lookup, ?_⟩
  intro t h1 h2 hc
  rcases hc with hc | hc
  · rw [h1] at hc
    exact Bool.false_ne_true hc
  · exact hc.2 h2

/-- Claim C3, witness for the amended theorem. -/
theorem claim3_witness :
    (strEqFold sampleInProgress.status StatusCompleted = false ∧
      sampleInProgress.GetDescriptions = []) ∧
    ¬ completedCond sampleInProgress :=
  ⟨⟨by decide, by decide⟩, claim3_completed_rule.2 sampleInProgress (by decide) (by decide)⟩

/-- Claim C4: the blocked view contains exactly the underlying tasks of the
most-recent records (one per sentinel-aware key) whose blocker is non-empty;
a record that is not the most-recent of its key never appears. -/
theorem claim4_blocked_view (workData : WorkData) (dates : List String) (t : Task) :
    t ∈ (CategorizeTasks workData dates).blocked ↔
      ∃ k mr, lookupKey (mostRecentOf workData dates) k = some mr ∧
        mr.task.blocker ≠ "" ∧ t = mr.task :=
  blocked_mem_char workData dates t

/-- Claim C5, counterexample: for the key "NO-JIRA: cleanup" with a non-empty
PR reference, ticket-ID extraction yields no identifier, so the claim's
disjunction classifies it as non-feature; the code classifies it as feature
work because the NO-JIRA branch takes precedence over the extraction check. -/
theorem claim5_counterexample :
    IsNonFeatureWork "NO-JIRA: cleanup" "has-pr" = false ∧
    ExtractTicketID "NO-JIRA: cleanup" = "" ∧
    strContains (asciiUpper "NO-JIRA: cleanup") "NO-JIRA" = true ∧
    "NO-JIRA: cleanup" ≠ "" := by
  refine ⟨by decide, by decide, by decide, by decide⟩

/-- Claim C5 (amended): the non-feature predicate holds iff the key is empty,
or the key contains "NO-JIRA" case-insensitively and the PR reference is
empty, or the key does NOT contain "NO-JIRA" and ticket-ID extraction on it
yields no identifier; in particular "NO-JIRA: cleanup" with a non-empty PR
reference is feature work. -/
theorem claim5_nonfeature_rule (ticket pr : String) :
    (IsNonFeatureWork ticket pr = true ↔
      (ticket = "" ∨
       (strContains (asciiUpper ticket) "NO-JIRA" = true ∧ pr = "") ∨
       (strContains (asciiUpper ticket) "NO-JIRA" = false ∧
         ExtractTicketID ticket = ""))) ∧
    IsNonFeatureWork "NO-JIRA: cleanup" "has-pr" = false := by
  refine ⟨?_, by decide⟩
  unfold IsNonFeatureWork
  by_cases h1 : ticket = ""
  · simp [h1]
  · rw [if_neg h1]
    by_cases h2 : strContains (asciiUpper ticket) "NO-JIRA" = true
    · rw [if_pos h2]
      simp [h1, h2, beq_iff_eq]
    · have h2f : strContains (asciiUpper ticket) "NO-JIRA" = false := by
        cases h4 : strContains (asciiUpper ticket) "NO-JIRA"
        · rfl
        · exact absurd h4 h2
      rw [if_neg h2]
      by_cases h3 : ExtractTicketID ticket = ""
      · simp [h1, h2f, h3]
      · simp [h1, h2f, h3]

/-- Claim C6: extraction is total and returns either the empty string or an
identifier of the shape `[A-Z]+-[0-9]+`; the identifier of a tracker-URL
match is returned when one exists, otherwise the first word-bounded
plain-text match, otherwise the empty string. -/
theorem claim6_extract_spec (input : String) :
    (ExtractTicketID input = "" ∨ IsTicketShape (ExtractTicketID input).toList) ∧
    (∀ id, urlFindAux input.toList = some id → ExtractTicketID input = String.mk id) ∧
    (urlFindAux input.toList = none →
      ∀ id, ticketFindAux none input.toList = some id →
        ExtractTicketID input = String.mk id) ∧
    (urlFindAux input.toList = none → ticketFindAux none input.toList = none →
      ExtractTicketID input = "") := by
  refine ⟨?_, ?_, ?_, ?_⟩
  · unfold ExtractTicketID
    cases hu : urlFindAux input.toList with
    | some id =>
      right
      exact urlFindAux_shape input.toList id hu
    | none =>
      cases ht : ticketFindAux none input.toList with
      | some id =>
        right
        exact ticketFindAux_shape input.toList none id ht
      | none =>
        left
        rfl
  · intro id h
    unfold ExtractTicketID
    rw [h]
  · intro hu id ht
    unfold ExtractTicketID
    rw [hu, ht]
  · intro hu ht
    unfold ExtractTicketID
    rw [hu, ht]

/-- Claim C6, witness: an input holding a plain-text identifier BEFORE a
tracker URL still returns the URL-captured identifier. -/
theorem claim6_witness :
    urlFindAux "SCR-9 https://issues.redhat.com/browse/AB-12".toList =
      some "AB-12".toList ∧
    ExtractTicketID "SCR-9 https://issues.redhat.com/browse/AB-12" =
      String.mk "AB-12".toList :=
  ⟨by decide,
   (claim6_extract_spec "SCR-9 https://issues.redhat.com/browse/AB-12").2.1
     "AB-12".toList (by decide)⟩

/-- Claim C9: empty date sequence or empty work log yields an all-empty
classification, and a date absent from the work log is skipped without
affecting the result. -/
theorem claim9_empty_and_skip :
    (∀ workData : WorkData, CategorizeTasks workData [] = ⟨[], [], []⟩) ∧
    (∀ dates : List String, CategorizeTasks ([] : List (String × DailyLog)) dates =
      ⟨[], [], []⟩) ∧
    (∀ (workData : WorkData) (pre : List String) (d : String) (post : List String),
      lookupKey workData d = none →
      CategorizeTasks workData (pre ++ d :: post) = CategorizeTasks workData (pre ++ post)) := by
  have hid : ∀ (dates : List String) (st : CatState),
      dates.foldl (processDate ([] : List (String × DailyLog))) st = st := by
    intro dates
    induction dates with
    | nil => intro st; rfl
    | cons d ds ih =>
      intro st
      simp only [List.foldl_cons]
      exact ih st
  refine ⟨fun workData => rfl, ?_, ?_⟩
  · intro dates
    show (let st := classifyState [] dates
      CategorizedTasks.mk st.completedTasks
        (st.allNextUpTasks.filter (fun kv => nextUpKeep st.mostRecentTasks kv.1))
        (st.mostRecentTasks.filterMap
          (fun kv => if kv.2.task.blocker ≠ "" then some kv.2.task else none))) = ⟨[], [], []⟩
    unfold classifyState
    rw [hid]
    rfl
  · intro workData pre d post hnone
    have hcs : classifyState workData (pre ++ d :: post) =
        classifyState workData (pre ++ post) := by
      unfold classifyState
      rw [List.foldl_append, List.foldl_append, List.foldl_cons]
      congr 1
      unfold processDate
      rw [hnone]
    unfold CategorizeTasks
    rw [hcs]

/-- Claim C9, witness: a date missing from the work log is skipped. -/
theorem claim9_witness :
    lookupKey sampleWorkData "2024-09-01" = none ∧
    CategorizeTasks sampleWorkData (["2024-08-01"] ++ "2024-09-01" :: ["2024-08-02"]) =
      CategorizeTasks sampleWorkData (["2024-08-01"] ++ ["2024-08-02"]) :=
  ⟨by decide,
   claim9_empty_and_skip.2.2 sampleWorkData ["2024-08-01"] "2024-09-01" ["2024-08-02"]
     (by decide)⟩

/-- Claim C7: in each text section whose non-feature partition is non-empty,
the non-feature items form a single trailing block headed by the
"Non-feature work" label, with one sub-block per item headed by the item's
key or "Misc" when the key is empty, and every content line of a sub-block
carries the ▪ bullet one indent level deeper than feature content. -/
theorem claim7_nonfeature_block :
    (∀ tasks : List (String × List TaskWithDate),
      sortEntriesByKey (tasks.filter (fun kv => groupIsNonFeature kv)) ≠ [] →
      PrintCompletedTasks tasks =
        TextHeaderCompleted ::
          (sortEntriesByKey (tasks.filter (fun kv => !groupIsNonFeature kv))).flatMap
            (fun kv => printTicketEntry kv.1 kv.2) ++
          ("    • " ++ textNonFeatureWorkHeader ++ ": ") ::
            (sortEntriesByKey (tasks.filter (fun kv => groupIsNonFeature kv))).flatMap
              (fun kv => printNonFeatureSubEntry kv.1 kv.2)) ∧
    (∀ (ticket : String) (taskList : List TaskWithDate),
      ∃ rest, printNonFeatureSubEntry ticket taskList =
          ("        ◦ " ++ (if ticket = "" then "Misc" else ticket)) :: rest ∧
        ∀ line ∈ rest, ∃ tail, line = "            ▪ " ++ tail) ∧
    (∀ nextUp : List (String × List TaskWithDate),
      sortEntriesByKey (nextUp.filter (fun kv => groupIsNonFeature kv)) ≠ [] →
      PrintNextUpTasks nextUp =
        TextHeaderNextUp ::
          (sortEntriesByKey (nextUp.filter (fun kv => !groupIsNonFeature kv))).flatMap
            (fun kv => printNextUpTicketEntry kv.1 kv.2) ++
          ("    • " ++ textNonFeatureWorkHeader) ::
            (sortEntriesByKey (nextUp.filter (fun kv => groupIsNonFeature kv))).flatMap
              (fun kv => printNonFeatureNextUpSubEntry kv.1 kv.2)) ∧
    (∀ (ticket : String) (taskList : List TaskWithDate),
      ∃ rest, printNonFeatureNextUpSubEntry ticket taskList =
          ("        ◦ " ++ (if ticket = "" then "Misc" else ticket)) :: rest ∧
        ∀ line ∈ rest, ∃ tail, line = "            ▪ " ++ tail) ∧
    (∀ blocked : List Task,
      blocked.filter (fun t => IsNonFeatureWork t.jiraTicket t.githubPR) ≠ [] →
      PrintBlockedTasks blocked =
        TextHeaderBlocked ::
          (blocked.filter (fun t => !IsNonFeatureWork t.jiraTicket t.githubPR)).flatMap
            (fun t =>
              ["    • " ++ t.jiraTicket ++ " ", "        ◦ Blocker: " ++ t.blocker]) ++
          ("    • " ++ textNonFeatureWorkHeader ++ " ") ::
            (blocked.filter (fun t => IsNonFeatureWork t.jiraTicket t.githubPR)).flatMap
              (fun t =>
                ["        ◦ " ++ (if t.jiraTicket = "" then "Misc" else t.jiraTicket),
                 "            ▪ Blocker: " ++ t.blocker])) ∧
    (∀ t : Task, ∃ tail, "            ▪ Blocker: " ++ t.blocker = "            ▪ " ++ tail) :=
  ⟨printCompletedTasks_structure, printNonFeatureSubEntry_shape,
   printNextUpTasks_structure, printNonFeatureNextUpSubEntry_shape,
   printBlockedTasks_structure,
   fun t =>
     ⟨"Blocker: " ++ t.blocker, by
       rw [show ("            ▪ Blocker: " : String) = "            ▪ " ++ "Blocker: " from
         by decide, String.append_assoc]⟩⟩

/-- Claim C7, witness at a concrete anonymous group in all three sections. -/
theorem claim7_witness :
    ((sortEntriesByKey (nonFeatureGroup.filter (fun kv => groupIsNonFeature kv)) ≠ []) ∧
      PrintCompletedTasks nonFeatureGroup =
        TextHeaderCompleted ::
          (sortEntriesByKey (nonFeatureGroup.filter
            (fun kv => !groupIsNonFeature kv))).flatMap
            (fun kv => printTicketEntry kv.1 kv.2) ++
          ("    • " ++ textNonFeatureWorkHeader ++ ": ") ::
            (sortEntriesByKey (nonFeatureGroup.filter
              (fun kv => groupIsNonFeature kv))).flatMap
              (fun kv => printNonFeatureSubEntry kv.1 kv.2)) ∧
    ((sortEntriesByKey (nonFeatureGroup.filter (fun kv => groupIsNonFeature kv)) ≠ []) ∧
      PrintNextUpTasks nonFeatureGroup =
        TextHeaderNextUp ::
          (sortEntriesByKey (nonFeatureGroup.filter
            (fun kv => !groupIsNonFeature kv))).flatMap
            (fun kv => printNextUpTicketEntry kv.1 kv.2) ++
          ("    • " ++ textNonFeatureWorkHeader) ::
            (sortEntriesByKey (nonFeatureGroup.filter
              (fun kv => groupIsNonFeature kv))).flatMap
              (fun kv => printNonFeatureNextUpSubEntry kv.1 kv.2)) ∧
    (([blockedAnon].filter (fun t => IsNonFeatureWork t.jiraTicket t.githubPR) ≠ []) ∧
      PrintBlockedTasks [blockedAnon] =
        TextHeaderBlocked ::
          ([blockedAnon].filter
            (fun t => !IsNonFeatureWork t.jiraTicket t.githubPR)).flatMap
            (fun t =>
              ["    • " ++ t.jiraTicket ++ " ", "        ◦ Blocker: " ++ t.blocker]) ++
          ("    • " ++ textNonFeatureWorkHeader ++ " ") ::
            ([blockedAnon].filter
              (fun t => IsNonFeatureWork t.jiraTicket t.githubPR)).flatMap
              (fun t =>
                ["        ◦ " ++ (if t.jiraTicket = "" then "Misc" else t.jiraTicket),
                 "            ▪ Blocker: " ++ t.blocker])) :=
  ⟨⟨by decide, claim7_nonfeature_block.1 nonFeatureGroup (by decide)⟩,
   ⟨by decide, claim7_nonfeature_block.2.2.1 nonFeatureGroup (by decide)⟩,
   ⟨by decide, claim7_nonfeature_block.2.2.2.2.1 [blockedAnon] (by decide)⟩⟩

/-- Claim C8: the PR links of a completed feature entry are exactly the
distinct non-empty `githubPR` values of the contributing records, without
duplicates, sorted ascending; the trailing "PR(s):" line joins them with
"; " and is present exactly when this set is non-empty. -/
theorem claim8_pr_links (ticket : String) (taskList : List TaskWithDate) :
    (∀ s, s ∈ sortedPRLinks (sortByDate taskList) ↔
      ∃ twd ∈ taskList, twd.task.githubPR = s ∧ s ≠ "") ∧
    (sortedPRLinks (sortByDate taskList)).Nodup ∧
    List.Sorted strLeP (sortedPRLinks (sortByDate taskList)) ∧
    (sortedPRLinks (sortByDate taskList) ≠ [] →
      printTicketEntry ticket taskList =
        ("    • " ++ ticket ++ ": ") ::
          ((sortByDate taskList).flatMap (fun twd => twd.task.GetDescriptions)).map
            (fun d => "        ◦ " ++ d) ++
          ["        ◦ " ++ "PR(s): " ++
            "; ".intercalate (sortedPRLinks (sortByDate taskList))]) ∧
    (sortedPRLinks (sortByDate taskList) = [] →
      printTicketEntry ticket taskList =
        ("    • " ++ ticket ++ ": ") ::
          ((sortByDate taskList).flatMap (fun twd => twd.task.GetDescriptions)).map
            (fun d => "        ◦ " ++ d)) :=
  ⟨fun s => mem_sortedPRLinks_sortByDate taskList s,
   nodup_sortStrings _ (nodup_collectPRLinks _),
   sorted_sortStrings _,
   printTicketEntry_with_prLine ticket taskList,
   printTicketEntry_no_prLine ticket taskList⟩

/-- Claim C8, witness: a group with two distinct PR links renders the
trailing line. -/
theorem claim8_witness :
    (sortedPRLinks (sortByDate prTaskGroup) ≠ []) ∧
    printTicketEntry "SCR-1" prTaskGroup =
      ("    • " ++ "SCR-1" ++ ": ") ::
        ((sortByDate prTaskGroup).flatMap (fun twd => twd.task.GetDescriptions)).map
          (fun d => "        ◦ " ++ d) ++
        ["        ◦ " ++ "PR(s): " ++
          "; ".intercalate (sortedPRLinks (sortByDate prTaskGroup))] :=
  ⟨by decide, (claim8_pr_links "SCR-1" prTaskGroup).2.2.2.1 (by decide)⟩

/-- Claim C10: empty-key records and records keyed by the literal sentinel
string share one pooled most-recent slot: that slot is computed from exactly
those records; nextUp filtering of both keys is gated by the pooled slot;
blocked membership for such tasks is decided by the pooled slot; and the
completed / nextUp groupings still store the records under their distinct
original keys. -/
theorem claim10_sentinel_pooling (workData : WorkData) (dates : List String) :
    (lookupKey (mostRecentOf workData dates) emptyTicketKey =
      ((recordsInRange workData dates).filter
        (fun p => decide (p.2.jiraTicket = "" ∨ p.2.jiraTicket = emptyTicketKey))).foldl
        mrStep none) ∧
    (∀ k, k = "" ∨ k = emptyTicketKey →
      ((∃ l, lookupKey (CategorizeTasks workData dates).nextUp k = some l) ↔
        ((∃ p ∈ recordsInRange workData dates,
            p.2.jiraTicket = k ∧ p.2.upnextDescription ≠ "") ∧
         ∃ mr, lookupKey (mostRecentOf workData dates) emptyTicketKey = some mr ∧
           statusOpenP mr))) ∧
    (∀ t : Task, t.jiraTicket = "" ∨ t.jiraTicket = emptyTicketKey →
      (t ∈ (CategorizeTasks workData dates).blocked ↔
        ∃ mr, lookupKey (mostRecentOf workData dates) emptyTicketKey = some mr ∧
          mr.task = t ∧ t.blocker ≠ "")) ∧
    (∀ (k : String) (l : List TaskWithDate) (twd : TaskWithDate),
      (lookupKey (CategorizeTasks workData dates).completed k = some l ∨
        lookupKey (CategorizeTasks workData dates).nextUp k = some l) →
      twd ∈ l → twd.task.jiraTicket = k) := by
  refine ⟨?_, ?_, ?_, ?_⟩
  · rw [mostRecentOf_lookup]
    congr 1
    apply List.filter_congr
    intro p _
    rw [decide_eq_decide]
    exact mrKeyOf_eq_sentinel_iff _
  · intro k hk
    have hmr : mrKeyOf k = emptyTicketKey := (mrKeyOf_eq_sentinel_iff k).mpr hk
    have h := nextUp_mem_char workData dates k
    rw [hmr] at h
    exact h
  · intro t ht
    rw [blocked_mem_char]
    constructor
    · rintro ⟨k, mr, hl, hb, htm⟩
      subst htm
      have hk := mostRecentOf_key_inv workData dates k mr hl
      have hsent : mrKeyOf mr.task.jiraTicket = emptyTicketKey :=
        (mrKeyOf_eq_sentinel_iff _).mpr ht
      rw [hk] at hsent
      rw [hsent] at hl
      exact ⟨mr, hl, rfl, hb⟩
    · rintro ⟨mr, hl, hmt, hbl⟩
      refine ⟨emptyTicketKey, mr, hl, ?_, hmt.symm⟩
      rw [hmt]
      exact hbl
  · intro k l twd hor hmem
    rcases hor with h | h
    · rw [completedOf_lookup] at h
      split at h
      · exact absurd h (by simp)
      · injection h with h
        subst h
        exact mem_collectCompleted hmem
    · rw [nextUp_lookup] at h
      split at h
      · rw [allNextUpOf_lookup] at h
        split at h
        · exact absurd h (by simp)
        · injection h with h
          subst h
          exact mem_collectNextUp hmem
      · exact absurd h (by simp)

/-- Claim C10, witness: the empty-key record's blocker is suppressed by the
later sentinel-keyed record through the pooled slot. -/
theorem claim10_witness :
    ((anonTask.jiraTicket = "" ∨ anonTask.jiraTicket = emptyTicketKey) ∧
      (anonTask ∈ (CategorizeTasks pooledWorkData
          ["2024-08-01", "2024-08-02"]).blocked ↔
        ∃ mr, lookupKey (mostRecentOf pooledWorkData
            ["2024-08-01", "2024-08-02"]) emptyTicketKey = some mr ∧
          mr.task = anonTask ∧ anonTask.blocker ≠ "")) ∧
    ((("" : String) = "" ∨ ("" : String) = emptyTicketKey) ∧
      ((∃ l, lookupKey (CategorizeTasks pooledWorkData
          ["2024-08-01", "2024-08-02"]).nextUp "" = some l) ↔
        ((∃ p ∈ recordsInRange pooledWorkData ["2024-08-01", "2024-08-02"],
            p.2.jiraTicket = "" ∧ p.2.upnextDescription ≠ "") ∧
         ∃ mr, lookupKey (mostRecentOf pooledWorkData
             ["2024-08-01", "2024-08-02"]) emptyTicketKey = some mr ∧
           statusOpenP mr))) :=
  ⟨⟨by decide,
    (claim10_sentinel_pooling pooledWorkData ["2024-08-01", "2024-08-02"]).2.2.1
      anonTask (by decide)⟩,
   ⟨Or.inl rfl,
    (claim10_sentinel_pooling pooledWorkData ["2024-08-01", "2024-08-02"]).2.1
      "" (Or.inl rfl)⟩⟩

end TaskLedger

